import Mathlib

/-!
# Verification of the WebM duration-repair engine (`src/utils/webmFixer.ts`)

This file gives a shallow embedding of the binary container repair module:
the EBML variable-width integer codec (`getEBMLByteLength`, `writeEBMLVarInt`,
`readEBMLVarInt`), the cue-point builder (`createCuePoint`), and the main
scan-and-rewrite pass (`fixWebmDuration`), together with theorems about the
properties of that code.

Modelling conventions:
* Byte buffers are `List Nat` with entries in `[0, 255]`.
* JavaScript numbers are modelled as exact integers (`Int`/`Nat`); JavaScript
  *bitwise* operators truncate their operands to 32-bit two's complement, and
  this truncation is modelled explicitly (`toUint32`, `jsAnd`, `jsOr`,
  `jsShl`, `jsShr`).
* Out-of-range `Uint8Array` indexing yields `undefined` in JavaScript; in every
  position the source reads a byte, `undefined` is fed to a bitwise operator,
  where `ToInt32 undefined = 0`, so out-of-range reads are modelled as byte 0.
* A thrown JavaScript exception is an `Except.error` carrying the constructor
  name (`Error` / `RangeError`) and the message.
* The source's unbounded `while` loops are modelled with explicit fuel;
  running out of fuel produces a distinguished error (`ModelNontermination`)
  that corresponds to a JavaScript execution that never terminates.  All
  theorems below are about executions that finish.
* `setFloat64` on the caller-supplied `duration` is modelled by passing the
  8-byte IEEE-754 image of the duration (`dur8`) directly; the source never
  uses `duration` in any other way.  For the cluster timecodes (which are
  `getUint16` results, hence below `2^16` and exactly representable) the
  encoding `f64Bytes` is computed exactly.
-/

set_option maxRecDepth 4096

namespace WebmFixer

/-- A thrown JavaScript exception: constructor name and message. -/
structure JsErr where
  name : String
  message : String
deriving DecidableEq, Repr

instance {ε α : Type} [DecidableEq ε] [DecidableEq α] : DecidableEq (Except ε α) := fun
  | .ok a, .ok b => if h : a = b then .isTrue (by rw [h]) else .isFalse (by simp [h])
  | .ok _, .error _ => .isFalse (by simp)
  | .error _, .ok _ => .isFalse (by simp)
  | .error e, .error f => if h : e = f then .isTrue (by rw [h]) else .isFalse (by simp [h])

/-- `ToUint32`: JavaScript's conversion of an integer to an unsigned 32-bit
value, used as the first step of every bitwise operator. -/
def toUint32 (n : Int) : Nat := (n % (2 ^ 32 : Int)).toNat

/-- Reinterpret an unsigned 32-bit value as a signed 32-bit result, as
JavaScript bitwise operators do. -/
def ofUint32 (m : Nat) : Int := if m < 2 ^ 31 then (m : Int) else (m : Int) - 2 ^ 32

/-- `ToInt32`: truncation of an integer to signed 32-bit two's complement. -/
def toInt32 (n : Int) : Int := ofUint32 (toUint32 n)

/-- JavaScript `a & b` (32-bit). -/
def jsAnd (a b : Int) : Int := ofUint32 (Nat.land (toUint32 a) (toUint32 b))

/-- JavaScript `a | b` (32-bit). -/
def jsOr (a b : Int) : Int := ofUint32 (Nat.lor (toUint32 a) (toUint32 b))

/-- JavaScript `a << n` (32-bit). -/
def jsShl (a : Int) (n : Nat) : Int := ofUint32 (toUint32 a * 2 ^ (n % 32) % 2 ^ 32)

/-- JavaScript `a >> n`: sign-propagating (arithmetic) right shift, i.e.
flooring division of the 32-bit truncation by `2^n`. -/
def jsShr (a : Int) (n : Nat) : Int := toInt32 a / 2 ^ (n % 32)

/-- `buffer[i]` on a `Uint8Array`, with out-of-range reads modelled as 0
(see the module comment: every such read flows into a bitwise operator,
where `undefined` behaves as 0). -/
def byteAt (buf : List Nat) (i : Int) : Nat :=
  if i < 0 then 0 else buf.getD i.toNat 0

/-- The consecutive bytes `buffer[start], …, buffer[start+n-1]`. -/
def bytesAt (buf : List Nat) (start : Int) (n : Nat) : List Nat :=
  (List.range n).map fun (i : Nat) => byteAt buf (start + (i : Int))

/-- Structural helper for `vintLen`: the loop body, with fuel.  The loop
increments `len` while `len ≤ 8`, so from `len = 1` it runs at most 8 steps
and fuel 9 is never exhausted. -/
def vintLenAux (b : Nat) (fuel len : Nat) : Nat :=
  match fuel with
  | 0 => len
  | fuel + 1 =>
    if len ≤ 8 ∧ jsAnd b (jsShl 1 (8 - len)) = 0 then vintLenAux b fuel (len + 1) else len

/-- The `length` computation of `readEBMLVarInt`:
`while (length <= 8 && !(firstByte & (1 << (8 - length)))) length++`. -/
def vintLen (b : Nat) (len : Nat) : Nat := vintLenAux b 9 len

/-- The big-endian assembly loop of `readEBMLVarInt`:
`value = (value << 8) | buffer[offset + i]`. -/
def assembleBE (v : Int) (ds : List Nat) : Int :=
  ds.foldl (fun a d => jsOr (jsShl a 8) (d : Int)) v

/-- `readEBMLVarInt(buffer, offset)`: reads the marker-bit length from the
first byte, masks the marker and assembles the remaining bytes big-endian.
Returns `(value, length)`.  The `value` is an `Int` because the 32-bit
assembly can wrap for lengths of five bytes and more. -/
def readEBMLVarInt (buf : List Nat) (offset : Int) : Except JsErr (Int × Nat) :=
  let firstByte := byteAt buf offset
  let length := vintLen firstByte 1
  if length > 8 then .error ⟨"Error", "Invalid EBML VINT length"⟩
  else
    let v0 := jsAnd (firstByte : Int) (jsShl 1 (8 - length) - 1)
    .ok (assembleBE v0 (bytesAt buf (offset + 1) (length - 1)), length)

/-- `getEBMLByteLength(value)`: the number of bytes the EBML varint encoding
of `value` uses, by the source's threshold chain; throws past `2^56 - 1`. -/
def getEBMLByteLength (value : Int) : Except JsErr Nat :=
  if value ≤ 0x7F then .ok 1
  else if value ≤ 0x3FFF then .ok 2
  else if value ≤ 0x1FFFFF then .ok 3
  else if value ≤ 0xFFFFFFF then .ok 4
  else if value ≤ 0x7FFFFFFFF then .ok 5
  else if value ≤ 0x3FFFFFFFFFF then .ok 6
  else if value ≤ 0x1FFFFFFFFFFFF then .ok 7
  else if value ≤ 0xFFFFFFFFFFFFFF then .ok 8
  else .error ⟨"Error", "EBML VINT size exceeded."⟩

/-- The byte-filling loop of `writeEBMLVarInt`: position `byteLength-1-i`
receives `val & 0xFF` after `i` iterations of `val >>= 8`. -/
def writeBytes (n : Nat) (val : Int) : List Nat :=
  match n with
  | 0 => []
  | n + 1 => writeBytes n (jsShr val 8) ++ [(jsAnd val 0xFF).toNat]

/-- `writeEBMLVarInt(value)`: big-endian bytes with the length-marker bit
`1 << (8 - byteLength)` OR-ed into the first byte. -/
def writeEBMLVarInt (value : Int) : Except JsErr (List Nat) := do
  let byteLength ← getEBMLByteLength value
  match writeBytes byteLength value with
  | [] => pure []
  | b :: rest => pure ((jsOr (b : Int) (jsShl 1 (8 - byteLength))).toNat :: rest)

/-- Big-endian base-256 digits of a natural number, `n` bytes (the pure
counterpart of `writeBytes`, and the byte image used by `setFloat64`). -/
def natBE (n : Nat) (v : Nat) : List Nat :=
  match n with
  | 0 => []
  | n + 1 => natBE n (v / 256) ++ [v % 256]

/-- Fuel-based base-2 logarithm (structurally recursive so that concrete
instances reduce in the kernel); agrees with `Nat.log2` when `n ≤ fuel`. -/
def log2Aux (fuel n : Nat) : Nat :=
  match fuel with
  | 0 => 0
  | fuel + 1 => if 2 ≤ n then log2Aux fuel (n / 2) + 1 else 0

/-- Base-2 logarithm (equals `Nat.log2`, see `log2Aux_eq_log2`). -/
def nlog2 (n : Nat) : Nat := log2Aux n n

/-- `new DataView(buf).setFloat64(0, t)` for a natural number `t`: the 8-byte
big-endian IEEE-754 image.  Exact for `t < 2^53`; all values the source feeds
in are `getUint16` results, hence below `2^16`.  (For `t ≥ 2^53`, where the
IEEE encoding rounds, this definition truncates; that range is unreachable.) -/
def f64Bytes (t : Nat) : List Nat :=
  if t = 0 then List.replicate 8 0
  else
    natBE 8 ((1023 + nlog2 t) * 2 ^ 52 +
      (if nlog2 t ≤ 52 then t * 2 ^ (52 - nlog2 t) - 2 ^ 52
       else t / 2 ^ (nlog2 t - 52) - 2 ^ 52))

/-- `createCuePoint(time, clusterOffset)`: one `CuePoint` element, holding a
`CueTime` (8-byte float) and a `CueTrackPositions` block with `CueTrack = 1`
and `CueClusterPosition = clusterOffset`.  The final buffer is
`[0xBB] ++ size ++ payload`; the source writes the size at offset 1 and the
payload from offset 2, so only the first size byte survives (`take 1`) — the
size always fits one byte since the payload length is at most 25. -/
def createCuePoint (time : Nat) (clusterOffset : Int) : Except JsErr (List Nat) := do
  let timeBytes := f64Bytes time
  let cueTimeSize ← writeEBMLVarInt 8
  let bl1 ← getEBMLByteLength clusterOffset
  let cueTrackPositionsSize ← writeEBMLVarInt (1 + 1 + (bl1 : Int))
  let cueTrackSize ← writeEBMLVarInt 1
  let bl2 ← getEBMLByteLength clusterOffset
  let cueClusterPositionSize ← writeEBMLVarInt (bl2 : Int)
  let cueClusterPositionValue ← writeEBMLVarInt clusterOffset
  let payload :=
    [0xB3] ++ cueTimeSize ++ timeBytes ++
    [0xB7] ++ cueTrackPositionsSize ++
    [0xF7] ++ cueTrackSize ++ [1] ++
    [0xF1] ++ cueClusterPositionSize ++ cueClusterPositionValue
  let cuePointSize ← writeEBMLVarInt (payload.length : Int)
  pure ([0xBB] ++ cuePointSize.take 1 ++ payload)

/-- `buffer.slice(a, b)`: JavaScript slice with negative-index and clamping
semantics. -/
def jsSlice (buf : List Nat) (a b : Int) : List Nat :=
  let len : Int := buf.length
  let lo : Int := if a < 0 then max (len + a) 0 else min a len
  let hi : Int := if b < 0 then max (len + b) 0 else min b len
  (buf.drop lo.toNat).take (hi - lo).toNat

/-- `buffer.slice(a)`: slice to the end of the buffer. -/
def jsSliceFrom (buf : List Nat) (a : Int) : List Nat :=
  jsSlice buf a (buf.length : Int)

/-- `new DataView(buffer, off, len).getUint32(0)`: big-endian 32-bit read,
with the `RangeError`s the `DataView` constructor and `getUint32` throw on
out-of-range views. -/
def dvGetUint32 (buf : List Nat) (off len : Int) : Except JsErr Nat :=
  if 0 ≤ off ∧ 0 ≤ len ∧ off + len ≤ (buf.length : Int) ∧ 4 ≤ len then
    .ok (byteAt buf off * 2 ^ 24 + byteAt buf (off + 1) * 2 ^ 16 +
         byteAt buf (off + 2) * 2 ^ 8 + byteAt buf (off + 3))
  else .error ⟨"RangeError", "Offset is outside the bounds of the DataView"⟩

/-- `new DataView(buffer, off, len).getUint16(0)`: big-endian 16-bit read. -/
def dvGetUint16 (buf : List Nat) (off len : Int) : Except JsErr Nat :=
  if 0 ≤ off ∧ 0 ≤ len ∧ off + len ≤ (buf.length : Int) ∧ 2 ≤ len then
    .ok (byteAt buf off * 2 ^ 8 + byteAt buf (off + 1))
  else .error ⟨"RangeError", "Offset is outside the bounds of the DataView"⟩

/-- The scan state accumulated by `fixWebmDuration`'s parser loop: the
`-1`-sentinel offsets and the collected cluster records `(time, offset)`. -/
structure ScanSt where
  seg : Int
  info : Int
  tcs : Int
  durOff : Int
  cues : Int
  clusters : List (Nat × Int)
deriving DecidableEq, Repr

/-- The model error produced when loop fuel runs out (a JavaScript execution
that never terminates). -/
def fuelErr : JsErr := ⟨"ModelNontermination", "loop fuel exhausted"⟩

/-- The inner loop of the `Cluster` branch: walk the cluster's children until
a `Timecode` (parsed id value `0xE7`) is found, then `getUint16` its payload
and stop.  Returns the timecode if one was found. -/
def clusterLoop (buf : List Nat) (fuel : Nat) (pos endPos : Int) :
    Except JsErr (Option Nat) :=
  match fuel with
  | 0 => .error fuelErr
  | fuel + 1 =>
    if pos < endPos then do
      let idInfo ← readEBMLVarInt buf pos
      let sizeInfo ← readEBMLVarInt buf (pos + (idInfo.2 : Int))
      let pos' := pos + (idInfo.2 : Int) + (sizeInfo.2 : Int)
      if idInfo.1 = 0xE7 then do
        let t ← dvGetUint16 buf pos' sizeInfo.1
        pure (some t)
      else clusterLoop buf fuel (pos' + sizeInfo.1) endPos
    else pure none

/-- One pass of the top-level `while (offset < uint8.length)` parser of
`fixWebmDuration`: read an id varint and a size varint, dispatch on the
parsed id value, and skip the content. -/
def scanLoop (buf : List Nat) (fuel : Nat) (offset : Int) (st : ScanSt) :
    Except JsErr ScanSt :=
  match fuel with
  | 0 => .error fuelErr
  | fuel + 1 =>
    if offset < (buf.length : Int) then do
      let idInfo ← readEBMLVarInt buf offset
      let sizeInfo ← readEBMLVarInt buf (offset + (idInfo.2 : Int))
      let contentOffset := offset + (idInfo.2 : Int) + (sizeInfo.2 : Int)
      let st' ←
        if idInfo.1 = 0x18538067 then
          pure (ScanSt.mk contentOffset st.info st.tcs st.durOff st.cues st.clusters)
        else if idInfo.1 = 0x1549A966 then
          pure (ScanSt.mk st.seg contentOffset st.tcs st.durOff st.cues st.clusters)
        else if idInfo.1 = 0x2AD7B1 then
          if st.info ≠ -1 then do
            let v ← dvGetUint32 buf contentOffset sizeInfo.1
            pure (ScanSt.mk st.seg st.info (v : Int) st.durOff st.cues st.clusters)
          else pure st
        else if idInfo.1 = 0x4489 then
          if st.info ≠ -1 then
            pure (ScanSt.mk st.seg st.info st.tcs contentOffset st.cues st.clusters)
          else pure st
        else if idInfo.1 = 0x1F43B675 then do
          match ← clusterLoop buf (buf.length + 1) contentOffset (contentOffset + sizeInfo.1) with
          | some t =>
            pure (ScanSt.mk st.seg st.info st.tcs st.durOff st.cues
              (st.clusters ++ [(t, contentOffset - st.seg)]))
          | none => pure st
        else if idInfo.1 = 0x1C53BB6B then
          pure (ScanSt.mk st.seg st.info st.tcs st.durOff
            (contentOffset - (sizeInfo.2 : Int) - (idInfo.2 : Int)) st.clusters)
        else pure st
      scanLoop buf fuel (contentOffset + sizeInfo.1) st'
    else pure st

/-- The full scan phase of `fixWebmDuration`, from offset 0 with all
locations at the `-1` sentinel. -/
def scan (buf : List Nat) : Except JsErr ScanSt :=
  scanLoop buf (buf.length + 1) 0 (ScanSt.mk (-1) (-1) (-1) (-1) (-1) [])

/-- Line 197 of the source: the fragile recomputation of the `Info` element's
end offset.  `readEBMLVarInt` is applied at `infoOffset - 2`, its length is
subtracted twice, a varint is read there, and its value is added to
`infoOffset`. -/
def infoEndCalc (buf : List Nat) (info : Int) : Except JsErr Int := do
  let r1 ← readEBMLVarInt buf (info - 2)
  let r2 ← readEBMLVarInt buf (info - 2)
  let sizeInfo ← readEBMLVarInt buf (info - (r1.2 : Int) - (r2.2 : Int))
  pure (info + sizeInfo.1)

/-- The index cut point of lines 217/236: the start of the `Cues` element if
one was recorded, otherwise `segmentOffset` plus the value of a varint
re-read at `segmentOffset - 1` (the last byte of the Segment size field). -/
def cutCalc (buf : List Nat) (seg cues : Int) : Except JsErr Int :=
  if cues = -1 then do
    let r ← readEBMLVarInt buf (seg - 1)
    pure (seg + r.1)
  else pure cues

/-- The duration-patch loop of lines 201–215: walk elements of
`[writeOffset, infoEnd)`; on each parsed id `0x4489` emit the bytes from the
current `infoOffset` up to the element's content start followed by the fresh
8 duration bytes, and move `infoOffset` past the element's declared content.
Returns the emitted parts and the final `infoOffset`. -/
def patchLoop (buf dur8 : List Nat) (fuel : Nat) (w io e : Int) :
    Except JsErr (List (List Nat) × Int) :=
  match fuel with
  | 0 => .error fuelErr
  | fuel + 1 =>
    if w < e then do
      let idInfo ← readEBMLVarInt buf w
      let sizeInfo ← readEBMLVarInt buf (w + (idInfo.2 : Int))
      let w' := w + (idInfo.2 : Int) + (sizeInfo.2 : Int)
      if idInfo.1 = 0x4489 then do
        let r ← patchLoop buf dur8 fuel (w' + sizeInfo.1) (w' + sizeInfo.1) e
        pure (jsSlice buf io w' :: dur8 :: r.1, r.2)
      else patchLoop buf dur8 fuel (w' + sizeInfo.1) io e
    else pure ([], io)

/-- The `Cues` payload of lines 220–227: the concatenation of one cue point
per collected cluster record, in scan order (the source appends each cue
point to a growing `Uint8Array`; the recursion below builds the same
concatenation and stops at the same first failing cluster). -/
def buildCuesPayload : List (Nat × Int) → Except JsErr (List Nat)
  | [] => .ok []
  | c :: rest => do
    let cp ← createCuePoint c.1 c.2
    let tl ← buildCuesPayload rest
    .ok (cp ++ tl)

/-- The core of `fixWebmDuration(blob, duration)` on the materialised input
bytes: scan, bail out unchanged if Segment / Info / TimecodeScale were not
located, otherwise assemble the output parts exactly as the source writer
does.  `dur8` is the 8-byte IEEE-754 image of `duration`. -/
def fixCore (buf dur8 : List Nat) : Except JsErr (List Nat) := do
  let st ← scan buf
  if st.seg = -1 ∨ st.info = -1 ∨ st.tcs = -1 then pure buf
  else do
    let part0 := jsSlice buf 0 st.info
    let insParts : List (List Nat) ←
      if st.durOff = -1 then do
        let durationSize ← writeEBMLVarInt 8
        pure [[0x44, 0x89], durationSize, dur8]
      else pure []
    let infoEnd ← infoEndCalc buf st.info
    let pr ← patchLoop buf dur8 (buf.length + 1) st.info st.info infoEnd
    let cut ← cutCalc buf st.seg st.cues
    let part5 := jsSlice buf pr.2 cut
    let payload ← buildCuesPayload st.clusters
    let cuesSize ← writeEBMLVarInt (payload.length : Int)
    let cut2 ← cutCalc buf st.seg st.cues
    let tail := jsSliceFrom buf cut2
    pure (List.flatten ([part0] ++ insParts ++ pr.1 ++
      [part5, [0x1C, 0x53, 0xBB, 0x6B], cuesSize, payload, tail]))

/-- Pure big-endian byte assembly (reference semantics, arbitrary
precision): `foldl (a, d) ↦ a * 256 + d`. -/
def ofBE (acc : Nat) (ds : List Nat) : Nat := ds.foldl (fun a d => a * 256 + d) acc

/-- Reference marker-length of a varint first byte: the 1-based position of
the leading set bit from bit 7 down; 9 when the byte is zero. -/
def vintLenPure (b : Nat) : Nat :=
  if 0x80 ≤ b then 1 else if 0x40 ≤ b then 2 else if 0x20 ≤ b then 3
  else if 0x10 ≤ b then 4 else if 0x8 ≤ b then 5 else if 0x4 ≤ b then 6
  else if 0x2 ≤ b then 7 else if 0x1 ≤ b then 8 else 9

/-- Reference varint decoder over a whole byte list (pure, arbitrary
precision): marker length from the first byte, marker bit masked off,
big-endian assembly.  Succeeds only when the list is exactly one varint. -/
def decodeVarNat (l : List Nat) : Option Nat :=
  match l with
  | [] => none
  | b :: rest =>
    let L := vintLenPure b
    if L ≤ 8 ∧ rest.length + 1 = L then some (ofBE (b % 2 ^ (8 - L)) rest) else none

/-- Reference decoder of the 8-byte big-endian IEEE-754 image of a
non-negative integral value: the partial inverse of `f64Bytes`. -/
def decodeF64 (bs : List Nat) : Option Nat :=
  if bs.length = 8 then
    if ofBE 0 bs = 0 then some 0
    else if 1023 ≤ ofBE 0 bs / 2 ^ 52 ∧ ofBE 0 bs / 2 ^ 52 ≤ 1075 then
      if (2 ^ 52 + ofBE 0 bs % 2 ^ 52) % 2 ^ (1075 - ofBE 0 bs / 2 ^ 52) = 0 then
        some ((2 ^ 52 + ofBE 0 bs % 2 ^ 52) / 2 ^ (1075 - ofBE 0 bs / 2 ^ 52))
      else none
    else none
  else none

/-- Parse one cue point, as laid out by `createCuePoint`, from the front of
a byte list: `CuePoint` id and one-byte size, then `CueTime` (8-byte float),
`CueTrackPositions` with `CueTrack` and `CueClusterPosition`.  Returns
`(time, track, clusterPosition)` and the remaining bytes. -/
def parseCuePoint1 (l : List Nat) : Option ((Nat × Nat × Nat) × List Nat) :=
  match l with
  | 0xBB :: s :: rest =>
    if 0x80 ≤ s ∧ s - 0x80 ≤ rest.length then
      match rest.take (s - 0x80), rest.drop (s - 0x80) with
      | 0xB3 :: 0x88 :: t0 :: t1 :: t2 :: t3 :: t4 :: t5 :: t6 :: t7 ::
        0xB7 :: _ :: 0xF7 :: 0x81 :: tr :: 0xF1 :: _ :: posBytes, rem =>
        match decodeF64 [t0, t1, t2, t3, t4, t5, t6, t7], decodeVarNat posBytes with
        | some t, some p => some ((t, tr, p), rem)
        | _, _ => none
      | _, _ => none
    else none
  | _ => none

/-- Parse a `Cues` payload as a sequence of cue points (fuel-structured). -/
def parseCuesAux (fuel : Nat) (l : List Nat) : Option (List (Nat × Nat × Nat)) :=
  match fuel, l with
  | _, [] => some []
  | 0, _ => none
  | fuel + 1, l =>
    match parseCuePoint1 l with
    | some (x, rem) => (parseCuesAux fuel rem).map (x :: ·)
    | none => none

/-- Parse a `Cues` payload into its list of `(time, track, position)`
records. -/
def parseCues (l : List Nat) : Option (List (Nat × Nat × Nat)) :=
  parseCuesAux (l.length + 1) l

/-- The minimal varint length class of a value (1 byte up to `2^7 - 1`,
2 bytes up to `2^14 - 1`, …); total, capping at 8.  Matches
`getEBMLByteLength` on its non-throwing domain. -/
def minClass (v : Nat) : Nat :=
  if v ≤ 0x7F then 1 else if v ≤ 0x3FFF then 2 else if v ≤ 0x1FFFFF then 3
  else if v ≤ 0xFFFFFFF then 4 else if v ≤ 0x7FFFFFFFF then 5
  else if v ≤ 0x3FFFFFFFFFF then 6 else if v ≤ 0x1FFFFFFFFFFFF then 7 else 8

/-- The pure image of `writeEBMLVarInt` on values below `2^31` (see
`writeEBMLVarInt_eq_pureVarint`): marker byte followed by the remaining
big-endian digits. -/
def pureVarint (v : Nat) : List Nat :=
  (2 ^ (8 - minClass v) + v / 256 ^ (minClass v - 1)) :: natBE (minClass v - 1) v

/-- The byte image of `createCuePoint time clusterOffset` for offsets below
`2^31` (see `createCuePoint_eq`). -/
def cuePointBytes (t o : Nat) : List Nat :=
  [0xBB, 0x80 + (17 + minClass o), 0xB3, 0x88] ++ f64Bytes t ++
  [0xB7, 0x80 + (2 + minClass o), 0xF7, 0x81, 1, 0xF1, 0x80 + minClass o] ++ pureVarint o

/-- One element header as the rewrite pass's walk parses it: start position,
parsed id value, id length, declared size value, size length. -/
structure PItem where
  w : Int
  idv : Int
  idl : Nat
  sv : Int
  sl : Nat

/-- `Chain buf w e items`: starting at `w`, the element walk of the
duration-patch loop parses exactly the headers in `items` before reaching a
position at or past `e` (each step reads an id varint and a size varint and
skips the declared content). -/
inductive Chain (buf : List Nat) : Int → Int → List PItem → Prop where
  | nil {w e : Int} : e ≤ w → Chain buf w e []
  | cons {w e idv : Int} {idl : Nat} {sv : Int} {sl : Nat} {rest : List PItem} :
      w < e →
      readEBMLVarInt buf w = .ok (idv, idl) →
      readEBMLVarInt buf (w + (idl : Int)) = .ok (sv, sl) →
      Chain buf (w + (idl : Int) + (sl : Int) + sv) e rest →
      Chain buf w e (⟨w, idv, idl, sv, sl⟩ :: rest)

/-- The parts the duration-patch loop emits, given the parsed element list:
for each element whose parsed id is `0x4489`, the bytes from the running
`infoOffset` to the element's content start, then the fresh duration bytes. -/
def patchPartsOf (buf dur8 : List Nat) (io : Int) : List PItem → List (List Nat)
  | [] => []
  | it :: rest =>
    if it.idv = 0x4489 then
      jsSlice buf io (it.w + (it.idl : Int) + (it.sl : Int)) :: dur8 ::
        patchPartsOf buf dur8 (it.w + (it.idl : Int) + (it.sl : Int) + it.sv) rest
    else patchPartsOf buf dur8 io rest

/-- The final `infoOffset` after the duration-patch loop: past the declared
content of the last element whose parsed id was `0x4489`. -/
def patchIoOf (io : Int) : List PItem → Int
  | [] => io
  | it :: rest =>
    if it.idv = 0x4489 then patchIoOf (it.w + (it.idl : Int) + (it.sl : Int) + it.sv) rest
    else patchIoOf io rest

/-- Decidable check that a `PItem` list is exactly the element walk the
duration-patch loop performs from `w` to `e` (a computable companion of the
`Chain` predicate, usable on concrete buffers). -/
def chainCheck (buf : List Nat) (w e : Int) : List PItem → Bool
  | [] => decide (e ≤ w)
  | it :: rest =>
    decide (w < e) && decide (it.w = w) &&
    (match readEBMLVarInt buf w with
     | .ok r => decide ((r.1, r.2) = (it.idv, it.idl))
     | .error _ => false) &&
    (match readEBMLVarInt buf (w + (it.idl : Int)) with
     | .ok r => decide ((r.1, r.2) = (it.sv, it.sl))
     | .error _ => false) &&
    chainCheck buf (w + (it.idl : Int) + (it.sl : Int) + it.sv) e rest

/-! ## Concrete sample containers

The ids below use nonstandard (over-long) EBML varint encodings such as
`[0x08, 0x18, 0x53, 0x80, 0x67]` for Segment: the source's `readEBMLVarInt`
strips the length-marker bit, and only these encodings make the parsed value
equal the full-id constants the scan compares against. -/

/-- The 8-byte IEEE-754 image of the duration `42.0` (`setFloat64`). -/
def sampleDur8 : List Nat := [0x40, 0x45, 0x00, 0x00, 0x00, 0x00, 0x00, 0x00]

/-- A two-byte buffer holding a single unknown element: no Segment, no Info. -/
def sampleNoSeg : List Nat := [0x81, 0x80]

/-- Segment and Info elements but no TimecodeScale inside. -/
def sampleNoScale : List Nat :=
  [0x08, 0x18, 0x53, 0x80, 0x67, 0x80, 0x08, 0x15, 0x49, 0xA9, 0x66, 0x80]

/-- A repairable container (Segment, Info, TimecodeScale) whose metadata has
no Duration element: 56 bytes, Info content at 13, scan finds no duration. -/
def sampleNoDur : List Nat :=
  [0x08, 0x18, 0x53, 0x80, 0x67, 0x80,
   0x08, 0x15, 0x49, 0xA9, 0x66, 0x40, 0x00,
   0x10, 0x2A, 0xD7, 0xB1, 0x84, 0x00, 0x00, 0x00, 0x01,
   0xEC, 0xA0] ++ List.replicate 32 0

/-- The 79-byte output the repair produces on `sampleNoDur`. -/
def sampleNoDurOut : List Nat :=
  [0x08, 0x18, 0x53, 0x80, 0x67, 0x80,
   0x08, 0x15, 0x49, 0xA9, 0x66, 0x40, 0x00,
   0x44, 0x89, 0x88, 0x40, 0x45, 0x00, 0x00, 0x00, 0x00, 0x00, 0x00,
   0x1C, 0x53, 0xBB, 0x6B, 0x80,
   0x08, 0x15, 0x49, 0xA9, 0x66, 0x40, 0x00,
   0x10, 0x2A, 0xD7, 0xB1, 0x84, 0x00, 0x00, 0x00, 0x01,
   0xEC, 0xA0] ++ List.replicate 32 0

/-- The 125-byte output of repairing `sampleNoDurOut` a second time. -/
def sampleNoDurTwice : List Nat :=
  [0x08, 0x18, 0x53, 0x80, 0x67, 0x80,
   0x08, 0x15, 0x49, 0xA9, 0x66, 0x40, 0x00,
   0x44, 0x89, 0x88, 0x40, 0x45, 0x00, 0x00, 0x00, 0x00, 0x00, 0x00,
   0x1C, 0x53, 0xBB, 0x6B, 0x80,
   0x08, 0x15, 0x49, 0xA9, 0x66, 0x40, 0x00,
   0x44, 0x89, 0x88, 0x40, 0x45, 0x00, 0x00, 0x00, 0x00, 0x00, 0x00,
   0x1C, 0x53, 0xBB, 0x6B, 0x80,
   0x08, 0x15, 0x49, 0xA9, 0x66, 0x40, 0x00,
   0x44, 0x89, 0x88, 0x40, 0x45, 0x00, 0x00, 0x00, 0x00, 0x00, 0x00,
   0x1C, 0x53, 0xBB, 0x6B, 0x80,
   0x08, 0x15, 0x49, 0xA9, 0x66, 0x40, 0x00,
   0x10, 0x2A, 0xD7, 0xB1, 0x84, 0x00, 0x00, 0x00, 0x01,
   0xEC, 0xA0] ++ List.replicate 32 0

/-- A repairable container whose Info payload holds a nested Duration
element (as real WebM files do): 54 bytes, Info size `0x0C`. -/
def sampleNested : List Nat :=
  [0x08, 0x18, 0x53, 0x80, 0x67, 0x80,
   0x08, 0x15, 0x49, 0xA9, 0x66, 0x40, 0x0C,
   0x20, 0x44, 0x89, 0x88, 0x11, 0x11, 0x11, 0x11, 0x11, 0x11, 0x11, 0x11,
   0x10, 0x2A, 0xD7, 0xB1, 0x84, 0x00, 0x00, 0x00, 0x01,
   0xEC, 0x92] ++ List.replicate 18 0

/-- The 89-byte output the repair produces on `sampleNested`: a fresh
duration is inserted *and* the nested one is patched. -/
def sampleNestedOut : List Nat :=
  [0x08, 0x18, 0x53, 0x80, 0x67, 0x80,
   0x08, 0x15, 0x49, 0xA9, 0x66, 0x40, 0x0C,
   0x44, 0x89, 0x88, 0x40, 0x45, 0x00, 0x00, 0x00, 0x00, 0x00, 0x00,
   0x20, 0x44, 0x89, 0x88, 0x40, 0x45, 0x00, 0x00, 0x00, 0x00, 0x00, 0x00,
   0x1C, 0x53, 0xBB, 0x6B, 0x80,
   0x08, 0x15, 0x49, 0xA9, 0x66, 0x40, 0x0C,
   0x20, 0x44, 0x89, 0x88, 0x11, 0x11, 0x11, 0x11, 0x11, 0x11, 0x11, 0x11,
   0x10, 0x2A, 0xD7, 0xB1, 0x84, 0x00, 0x00, 0x00, 0x01,
   0xEC, 0x92] ++ List.replicate 18 0

/-- A repairable container with a Duration element the scan records
(`durOff = 17`) and an existing Cues element at offset 34: 54 bytes. -/
def sampleWithDur : List Nat :=
  [0x08, 0x18, 0x53, 0x80, 0x67, 0x80,
   0x08, 0x15, 0x49, 0xA9, 0x66, 0x40, 0x00,
   0x20, 0x44, 0x89, 0x88, 0x11, 0x11, 0x11, 0x11, 0x11, 0x11, 0x11, 0x11,
   0x10, 0x2A, 0xD7, 0xB1, 0x84, 0x00, 0x00, 0x00, 0x01,
   0x08, 0x1C, 0x53, 0xBB, 0x6B, 0x80,
   0xEC, 0x8C] ++ List.replicate 12 0

/-- The 59-byte output the repair produces on `sampleWithDur`: the duration
content bytes are replaced in place and a new (empty) Cues element is
written before the old one. -/
def sampleWithDurOut : List Nat :=
  [0x08, 0x18, 0x53, 0x80, 0x67, 0x80,
   0x08, 0x15, 0x49, 0xA9, 0x66, 0x40, 0x00,
   0x20, 0x44, 0x89, 0x88,
   0x40, 0x45, 0x00, 0x00, 0x00, 0x00, 0x00, 0x00,
   0x10, 0x2A, 0xD7, 0xB1, 0x84, 0x00, 0x00, 0x00, 0x01,
   0x1C, 0x53, 0xBB, 0x6B, 0x80,
   0x08, 0x1C, 0x53, 0xBB, 0x6B, 0x80,
   0xEC, 0x8C] ++ List.replicate 12 0

/-- The element walk of the duration-patch loop on `sampleWithDur` from the
Info content offset 13 to the (mis)computed Info end 54. -/
def sampleWithDurItems : List PItem :=
  [⟨13, 0x4489, 3, 8, 1⟩, ⟨25, 0x2AD7B1, 4, 4, 1⟩,
   ⟨34, 0x1C53BB6B, 5, 0, 1⟩, ⟨40, 0x6C, 1, 12, 1⟩]

/-- A repairable container with two Cluster elements carrying Timecodes 0
and 1000 at relative offsets 22 and 33: 55 bytes. -/
def sampleClusters : List Nat :=
  [0x08, 0x18, 0x53, 0x80, 0x67, 0x80,
   0x08, 0x15, 0x49, 0xA9, 0x66, 0x40, 0x00,
   0x10, 0x2A, 0xD7, 0xB1, 0x84, 0x00, 0x00, 0x00, 0x01,
   0x08, 0x1F, 0x43, 0xB6, 0x75, 0x85, 0x40, 0xE7, 0x82, 0x00, 0x00,
   0x08, 0x1F, 0x43, 0xB6, 0x75, 0x85, 0x40, 0xE7, 0x82, 0x03, 0xE8,
   0xEC, 0x89] ++ List.replicate 9 0

/-- The 118-byte output the repair produces on `sampleClusters`, with a
two-point Cues index. -/
def sampleClustersOut : List Nat :=
  [0x08, 0x18, 0x53, 0x80, 0x67, 0x80,
   0x08, 0x15, 0x49, 0xA9, 0x66, 0x40, 0x00,
   0x44, 0x89, 0x88, 0x40, 0x45, 0x00, 0x00, 0x00, 0x00, 0x00, 0x00,
   0x1C, 0x53, 0xBB, 0x6B, 0xA8,
   0xBB, 0x92, 0xB3, 0x88, 0x00, 0x00, 0x00, 0x00, 0x00, 0x00, 0x00, 0x00,
   0xB7, 0x83, 0xF7, 0x81, 0x01, 0xF1, 0x81, 0x96,
   0xBB, 0x92, 0xB3, 0x88, 0x40, 0x8F, 0x40, 0x00, 0x00, 0x00, 0x00, 0x00,
   0xB7, 0x83, 0xF7, 0x81, 0x01, 0xF1, 0x81, 0xA1,
   0x08, 0x15, 0x49, 0xA9, 0x66, 0x40, 0x00,
   0x10, 0x2A, 0xD7, 0xB1, 0x84, 0x00, 0x00, 0x00, 0x01,
   0x08, 0x1F, 0x43, 0xB6, 0x75, 0x85, 0x40, 0xE7, 0x82, 0x00, 0x00,
   0x08, 0x1F, 0x43, 0xB6, 0x75, 0x85, 0x40, 0xE7, 0x82, 0x03, 0xE8,
   0xEC, 0x89] ++ List.replicate 9 0

/-! ## Arithmetic bridges: the 32-bit JavaScript operators on small values -/

theorem negBranch {c : Prop} [Decidable c] {α : Sort _} {a b : α} (h : ¬c) :
    (if c then a else b) = b := if_neg h

theorem ofUint32_small {m : Nat} (h : m < 2 ^ 31) : ofUint32 m = (m : Int) := by
  unfold ofUint32
  rw [if_pos h]

theorem toUint32_coe {a : Nat} (h : a < 2 ^ 32) : toUint32 (a : Int) = a := by
  unfold toUint32
  rw [Int.emod_eq_of_lt (by positivity) (by exact_mod_cast h)]
  exact Int.toNat_natCast a

theorem jsAnd_nat {a b : Nat} (ha : a < 2 ^ 32) (hb : b < 2 ^ 31) :
    jsAnd (a : Int) (b : Int) = ((a &&& b : Nat) : Int) := by
  unfold jsAnd
  rw [toUint32_coe ha, toUint32_coe (lt_trans hb (by norm_num))]
  exact ofUint32_small (Nat.and_lt_two_pow a hb)

theorem jsOr_nat {a b : Nat} (ha : a < 2 ^ 31) (hb : b < 2 ^ 31) :
    jsOr (a : Int) (b : Int) = ((a ||| b : Nat) : Int) := by
  unfold jsOr
  rw [toUint32_coe (lt_trans ha (by norm_num)), toUint32_coe (lt_trans hb (by norm_num))]
  exact ofUint32_small (Nat.bitwise_lt_two_pow ha hb)

theorem jsShl_small {a : Nat} (n : Nat) (hn : n < 32) (h : a * 2 ^ n < 2 ^ 31) :
    jsShl (a : Int) n = ((a * 2 ^ n : Nat) : Int) := by
  unfold jsShl
  rw [toUint32_coe (by nlinarith [Nat.one_le_two_pow (n := n)]), Nat.mod_eq_of_lt hn,
    Nat.mod_eq_of_lt (lt_trans h (by norm_num)), ofUint32_small h]

theorem jsShr_nonneg {a : Nat} (n : Nat) (hn : n < 32) (h : a < 2 ^ 31) :
    jsShr (a : Int) n = ((a / 2 ^ n : Nat) : Int) := by
  unfold jsShr toInt32
  rw [toUint32_coe (lt_trans h (by norm_num)), ofUint32_small h, Nat.mod_eq_of_lt hn,
    Int.ofNat_ediv]
  push_cast
  rfl

theorem land_two_pow_eq_zero {b k : Nat} (h : b < 2 ^ k) : b &&& 2 ^ k = 0 := by
  apply Nat.eq_of_testBit_eq
  intro i
  show (b &&& 2 ^ k).testBit i = Nat.testBit 0 i
  rw [Nat.testBit_and, Nat.zero_testBit]
  rcases eq_or_ne i k with rfl | hik
  · rw [Nat.testBit_lt_two_pow h, Bool.false_and]
  · rw [Nat.testBit_two_pow_of_ne (Ne.symm hik), Bool.and_false]

theorem land_two_pow_ne_zero {b k : Nat} (hlo : 2 ^ k ≤ b) (hhi : b < 2 ^ (k + 1)) :
    b &&& 2 ^ k ≠ 0 := by
  intro h0
  have hb : b.testBit k = true := by
    rw [Nat.testBit_to_div_mod]
    have h1 : b / 2 ^ k = 1 := by
      apply Nat.div_eq_of_lt_le
      · simpa using hlo
      · calc b < 2 ^ (k + 1) := hhi
          _ = (1 + 1) * 2 ^ k := by ring
    simp [h1]
  have : (b &&& 2 ^ k).testBit k = true := by
    rw [Nat.testBit_and, hb, Nat.testBit_two_pow_self]
    rfl
  rw [h0, Nat.zero_testBit] at this
  exact Bool.noConfusion this

/-! ## Big-endian byte strings -/

theorem natBE_length (n v : Nat) : (natBE n v).length = n := by
  induction n generalizing v with
  | zero => rfl
  | succ n ih => simp [natBE, ih]

theorem natBE_lt (n v : Nat) : ∀ d ∈ natBE n v, d < 256 := by
  induction n generalizing v with
  | zero => simp [natBE]
  | succ n ih =>
    intro d hd
    rcases List.mem_append.mp hd with h | h
    · exact ih _ _ h
    · simp only [List.mem_singleton] at h
      omega

theorem natBE_succ (n v : Nat) : natBE (n + 1) v = (v / 256 ^ n % 256) :: natBE n v := by
  induction n generalizing v with
  | zero => simp [natBE]
  | succ n ih =>
    show natBE (n + 1) (v / 256) ++ [v % 256] = _
    rw [ih (v / 256)]
    show (v / 256 / 256 ^ n % 256) :: (natBE n (v / 256) ++ [v % 256]) = _
    rw [Nat.div_div_eq_div_mul, show (256 : Nat) * 256 ^ n = 256 ^ (n + 1) from by ring]
    rfl

theorem writeBytes_eq (n : Nat) (v : Nat) (h : v < 2 ^ 31) :
    writeBytes n (v : Int) = natBE n v := by
  induction n generalizing v with
  | zero => rfl
  | succ n ih =>
    show writeBytes n (jsShr (v : Int) 8) ++ [(jsAnd (v : Int) 0xFF).toNat] = _
    rw [jsShr_nonneg 8 (by norm_num) h,
      show ((0xFF : Int)) = ((0xFF : Nat) : Int) from rfl,
      jsAnd_nat (lt_trans h (by norm_num)) (by norm_num),
      ih (v / 2 ^ 8) (lt_of_le_of_lt (Nat.div_le_self v (2 ^ 8)) h)]
    have hland : v &&& 0xFF = v % 256 := by
      have := Nat.and_pow_two_sub_one_eq_mod v 8
      simpa using this
    rw [hland, Int.toNat_natCast]
    have h28 : v / 2 ^ 8 = v / 256 := by norm_num
    rw [h28]
    rfl

theorem ofBE_append (acc : Nat) (l1 l2 : List Nat) :
    ofBE acc (l1 ++ l2) = ofBE (ofBE acc l1) l2 := by
  simp [ofBE, List.foldl_append]

theorem ofBE_natBE (n v acc : Nat) : ofBE acc (natBE n v) = acc * 256 ^ n + v % 256 ^ n := by
  induction n generalizing v acc with
  | zero => simp [natBE, ofBE, Nat.mod_one]
  | succ n ih =>
    show ofBE acc (natBE n (v / 256) ++ [v % 256]) = _
    rw [ofBE_append, ih]
    show ofBE (acc * 256 ^ n + v / 256 % 256 ^ n) [v % 256] = _
    show (acc * 256 ^ n + v / 256 % 256 ^ n) * 256 + v % 256 = _
    have hmm : v % (256 * 256 ^ n) = v % 256 + 256 * (v / 256 % 256 ^ n) := Nat.mod_mul
    have h2 : (256 : Nat) ^ (n + 1) = 256 * 256 ^ n := by ring
    rw [h2, hmm]
    ring

theorem ofBE_ge (l : List Nat) (acc : Nat) : acc ≤ ofBE acc l := by
  induction l generalizing acc with
  | nil => simp [ofBE]
  | cons d t ih =>
    show acc ≤ ofBE (acc * 256 + d) t
    calc acc ≤ acc * 256 + d := by omega
      _ ≤ _ := ih _

theorem assembleBE_eq (ds : List Nat) (acc : Nat) (hd : ∀ d ∈ ds, d < 256)
    (hb : ofBE acc ds < 2 ^ 31) : assembleBE (acc : Int) ds = ((ofBE acc ds : Nat) : Int) := by
  induction ds generalizing acc with
  | nil => rfl
  | cons d t ih =>
    have hdlt : d < 256 := hd d (List.mem_cons_self d t)
    have hstep : acc * 256 + d ≤ ofBE (acc * 256 + d) t := ofBE_ge t _
    have hofbe : ofBE acc (d :: t) = ofBE (acc * 256 + d) t := rfl
    rw [hofbe] at hb
    show assembleBE (jsOr (jsShl (acc : Int) 8) (d : Int)) t = _
    have hshl : jsShl (acc : Int) 8 = ((acc * 2 ^ 8 : Nat) : Int) :=
      jsShl_small 8 (by norm_num) (by omega)
    rw [hshl, jsOr_nat (by omega) (by omega)]
    have hlor : (acc * 2 ^ 8) ||| d = acc * 2 ^ 8 + d := by
      have := Nat.mul_add_lt_is_or (i := 8) (b := d) (by omega) acc
      have hc : (2 : Nat) ^ 8 * acc = acc * 2 ^ 8 := by ring
      rw [hc] at this
      exact this.symm
    rw [hlor, show acc * 2 ^ 8 + d = acc * 256 + d from by ring]
    exact ih _ (fun x hx => hd x (List.mem_cons_of_mem d hx)) hb

/-! ## The varint length detector -/

theorem vintLenAux_step_true {b fuel len : Nat} (h8 : len ≤ 8)
    (hz : jsAnd (b : Int) (jsShl 1 (8 - len)) = 0) :
    vintLenAux b (fuel + 1) len = vintLenAux b fuel (len + 1) := by
  simp [vintLenAux, h8, hz]

theorem vintLenAux_step_false {b fuel len : Nat}
    (h : ¬(len ≤ 8 ∧ jsAnd (b : Int) (jsShl 1 (8 - len)) = 0)) :
    vintLenAux b (fuel + 1) len = len := by
  simp only [vintLenAux, if_neg h]

theorem jsShl_one {k : Nat} (hk : k ≤ 30) : jsShl (1 : Int) k = ((2 ^ k : Nat) : Int) := by
  unfold jsShl
  rw [show toUint32 1 = 1 from by decide, Nat.mod_eq_of_lt (show k < 32 by omega), one_mul,
    Nat.mod_eq_of_lt (lt_of_lt_of_le (Nat.pow_lt_pow_right (by norm_num) (show k < 31 by omega))
      (by norm_num))]
  exact ofUint32_small (Nat.pow_lt_pow_right (by norm_num) (show k < 31 by omega))

theorem jsAnd_byte_pow_zero {b k : Nat} (hb : b < 256) (hk : k ≤ 7) (h : b < 2 ^ k) :
    jsAnd (b : Int) (jsShl 1 k) = 0 := by
  rw [jsShl_one (by omega), jsAnd_nat (by omega) (by
    calc (2 : Nat) ^ k ≤ 2 ^ 7 := Nat.pow_le_pow_right (by norm_num) hk
      _ < 2 ^ 31 := by norm_num)]
  rw [land_two_pow_eq_zero h]
  rfl

theorem jsAnd_byte_pow_ne_zero {b k : Nat} (hb : b < 256) (hk : k ≤ 7)
    (hlo : 2 ^ k ≤ b) (hhi : b < 2 ^ (k + 1)) :
    ¬ jsAnd (b : Int) (jsShl 1 k) = 0 := by
  rw [jsShl_one (by omega), jsAnd_nat (by omega) (by
    calc (2 : Nat) ^ k ≤ 2 ^ 7 := Nat.pow_le_pow_right (by norm_num) hk
      _ < 2 ^ 31 := by norm_num)]
  intro hcontra
  apply land_two_pow_ne_zero hlo hhi
  exact_mod_cast hcontra

theorem vintLen_spec {b L : Nat} (hb : b < 256) (h1 : 1 ≤ L) (h8 : L ≤ 8)
    (hlo : 2 ^ (8 - L) ≤ b) (hhi : b < 2 ^ (9 - L)) : vintLen b 1 = L := by
  interval_cases L
  · show vintLenAux b 9 1 = 1
    rw [vintLenAux_step_false (fun hc =>
      jsAnd_byte_pow_ne_zero hb (by norm_num) (by omega) (by omega) hc.2)]
  · show vintLenAux b 9 1 = 2
    rw [vintLenAux_step_true (by norm_num) (jsAnd_byte_pow_zero hb (by norm_num) (by omega)),
      vintLenAux_step_false (fun hc =>
        jsAnd_byte_pow_ne_zero hb (by norm_num) (by omega) (by omega) hc.2)]
  · show vintLenAux b 9 1 = 3
    rw [vintLenAux_step_true (by norm_num) (jsAnd_byte_pow_zero hb (by norm_num) (by omega)),
      vintLenAux_step_true (by norm_num) (jsAnd_byte_pow_zero hb (by norm_num) (by omega)),
      vintLenAux_step_false (fun hc =>
        jsAnd_byte_pow_ne_zero hb (by norm_num) (by omega) (by omega) hc.2)]
  · show vintLenAux b 9 1 = 4
    rw [vintLenAux_step_true (by norm_num) (jsAnd_byte_pow_zero hb (by norm_num) (by omega)),
      vintLenAux_step_true (by norm_num) (jsAnd_byte_pow_zero hb (by norm_num) (by omega)),
      vintLenAux_step_true (by norm_num) (jsAnd_byte_pow_zero hb (by norm_num) (by omega)),
      vintLenAux_step_false (fun hc =>
        jsAnd_byte_pow_ne_zero hb (by norm_num) (by omega) (by omega) hc.2)]
  · show vintLenAux b 9 1 = 5
    rw [vintLenAux_step_true (by norm_num) (jsAnd_byte_pow_zero hb (by norm_num) (by omega)),
      vintLenAux_step_true (by norm_num) (jsAnd_byte_pow_zero hb (by norm_num) (by omega)),
      vintLenAux_step_true (by norm_num) (jsAnd_byte_pow_zero hb (by norm_num) (by omega)),
      vintLenAux_step_true (by norm_num) (jsAnd_byte_pow_zero hb (by norm_num) (by omega)),
      vintLenAux_step_false (fun hc =>
        jsAnd_byte_pow_ne_zero hb (by norm_num) (by omega) (by omega) hc.2)]
  · show vintLenAux b 9 1 = 6
    rw [vintLenAux_step_true (by norm_num) (jsAnd_byte_pow_zero hb (by norm_num) (by omega)),
      vintLenAux_step_true (by norm_num) (jsAnd_byte_pow_zero hb (by norm_num) (by omega)),
      vintLenAux_step_true (by norm_num) (jsAnd_byte_pow_zero hb (by norm_num) (by omega)),
      vintLenAux_step_true (by norm_num) (jsAnd_byte_pow_zero hb (by norm_num) (by omega)),
      vintLenAux_step_true (by norm_num) (jsAnd_byte_pow_zero hb (by norm_num) (by omega)),
      vintLenAux_step_false (fun hc =>
        jsAnd_byte_pow_ne_zero hb (by norm_num) (by omega) (by omega) hc.2)]
  · show vintLenAux b 9 1 = 7
    rw [vintLenAux_step_true (by norm_num) (jsAnd_byte_pow_zero hb (by norm_num) (by omega)),
      vintLenAux_step_true (by norm_num) (jsAnd_byte_pow_zero hb (by norm_num) (by omega)),
      vintLenAux_step_true (by norm_num) (jsAnd_byte_pow_zero hb (by norm_num) (by omega)),
      vintLenAux_step_true (by norm_num) (jsAnd_byte_pow_zero hb (by norm_num) (by omega)),
      vintLenAux_step_true (by norm_num) (jsAnd_byte_pow_zero hb (by norm_num) (by omega)),
      vintLenAux_step_true (by norm_num) (jsAnd_byte_pow_zero hb (by norm_num) (by omega)),
      vintLenAux_step_false (fun hc =>
        jsAnd_byte_pow_ne_zero hb (by norm_num) (by omega) (by omega) hc.2)]
  · show vintLenAux b 9 1 = 8
    rw [vintLenAux_step_true (by norm_num) (jsAnd_byte_pow_zero hb (by norm_num) (by omega)),
      vintLenAux_step_true (by norm_num) (jsAnd_byte_pow_zero hb (by norm_num) (by omega)),
      vintLenAux_step_true (by norm_num) (jsAnd_byte_pow_zero hb (by norm_num) (by omega)),
      vintLenAux_step_true (by norm_num) (jsAnd_byte_pow_zero hb (by norm_num) (by omega)),
      vintLenAux_step_true (by norm_num) (jsAnd_byte_pow_zero hb (by norm_num) (by omega)),
      vintLenAux_step_true (by norm_num) (jsAnd_byte_pow_zero hb (by norm_num) (by omega)),
      vintLenAux_step_true (by norm_num) (jsAnd_byte_pow_zero hb (by norm_num) (by omega)),
      vintLenAux_step_false (fun hc =>
        jsAnd_byte_pow_ne_zero hb (by norm_num) (by omega) (by omega) hc.2)]

theorem vintLenPure_spec {b L : Nat} (h1 : 1 ≤ L) (h8 : L ≤ 8)
    (hlo : 2 ^ (8 - L) ≤ b) (hhi : b < 2 ^ (9 - L)) : vintLenPure b = L := by
  unfold vintLenPure
  obtain rfl | rfl | rfl | rfl | rfl | rfl | rfl | rfl :
      L = 1 ∨ L = 2 ∨ L = 3 ∨ L = 4 ∨ L = 5 ∨ L = 6 ∨ L = 7 ∨ L = 8 := by omega
  · rw [if_pos (by omega)]
  · rw [negBranch (by omega), if_pos (by omega)]
  · rw [negBranch (by omega), negBranch (by omega), if_pos (by omega)]
  · rw [negBranch (by omega), negBranch (by omega), negBranch (by omega), if_pos (by omega)]
  · rw [negBranch (by omega), negBranch (by omega), negBranch (by omega), negBranch (by omega),
      if_pos (by omega)]
  · rw [negBranch (by omega), negBranch (by omega), negBranch (by omega), negBranch (by omega),
      negBranch (by omega), if_pos (by omega)]
  · rw [negBranch (by omega), negBranch (by omega), negBranch (by omega), negBranch (by omega),
      negBranch (by omega), negBranch (by omega), if_pos (by omega)]
  · rw [negBranch (by omega), negBranch (by omega), negBranch (by omega), negBranch (by omega),
      negBranch (by omega), negBranch (by omega), negBranch (by omega), if_pos (by omega)]

theorem bytesAt_length (buf : List Nat) (s : Int) (n : Nat) : (bytesAt buf s n).length = n := by
  rw [bytesAt, List.length_map, List.length_range]

theorem bytesAt_succ (buf : List Nat) (s : Int) (n : Nat) :
    bytesAt buf s (n + 1) = bytesAt buf s n ++ [byteAt buf (s + (n : Int))] := by
  unfold bytesAt
  rw [List.range_succ, List.map_append]
  rfl

theorem bytesAt_eq (buf : List Nat) (s n : Nat) (h : s + n ≤ buf.length) :
    bytesAt buf (s : Int) n = (buf.drop s).take n := by
  induction n with
  | zero => rfl
  | succ n ih =>
    have hn : s + n ≤ buf.length := by omega
    have hlt : s + n < buf.length := by omega
    rw [bytesAt_succ, ih hn, List.take_succ]
    congr 1
    have h1 : (buf.drop s)[n]? = buf[s + n]? := by
      rw [List.getElem?_drop]
    rw [h1, List.getElem?_eq_getElem hlt]
    show [byteAt buf ((s : Int) + (n : Int))] = _
    unfold byteAt
    rw [negBranch (by omega), show ((s : Int) + (n : Int)).toNat = s + n from by omega,
      List.getD_eq_getElem buf 0 hlt]
    rfl

/-! ## The varint encode/decode round trip -/

theorem encode_core (v L : Nat) (hv : v < 2 ^ 31) (h1 : 1 ≤ L) (h8 : L ≤ 8)
    (hfit : v < 2 ^ (7 * L)) (henc : getEBMLByteLength (v : Int) = .ok L) :
    writeEBMLVarInt (v : Int) =
      .ok ((2 ^ (8 - L) + v / 256 ^ (L - 1)) :: natBE (L - 1) v) := by
  obtain ⟨n, rfl⟩ : ∃ n, L = n + 1 := ⟨L - 1, by omega⟩
  have h256 : (256 : Nat) ^ n = 2 ^ (8 * n) := by
    rw [show (256 : Nat) = 2 ^ 8 from rfl, ← pow_mul]
  have hhi_lt : v / 256 ^ n < 2 ^ (8 - (n + 1)) := by
    rw [Nat.div_lt_iff_lt_mul (by positivity)]
    calc v < 2 ^ (7 * (n + 1)) := hfit
      _ ≤ 2 ^ (8 - (n + 1)) * 256 ^ n := by
        rw [h256, ← pow_add]
        exact Nat.pow_le_pow_right (by norm_num) (by omega)
  have hk30 : 8 - (n + 1) ≤ 30 := by omega
  have hpow31 : (2 : Nat) ^ (8 - (n + 1)) < 2 ^ 31 :=
    Nat.pow_lt_pow_right (by norm_num) (by omega)
  have h2256 : (2 : Nat) ^ (8 - (n + 1)) ≤ 2 ^ 8 := Nat.pow_le_pow_right (by norm_num) (by omega)
  simp only [writeEBMLVarInt, henc, bind, Except.bind]
  rw [writeBytes_eq _ _ hv, natBE_succ, Nat.mod_eq_of_lt (by omega)]
  simp only [jsShl_one hk30, pure, Except.pure]
  rw [jsOr_nat (by omega) (by omega)]
  have hlor : (v / 256 ^ n) ||| (2 ^ (8 - (n + 1))) = 2 ^ (8 - (n + 1)) + v / 256 ^ n := by
    have := Nat.mul_add_lt_is_or (i := 8 - (n + 1)) (b := v / 256 ^ n) hhi_lt 1
    rw [mul_one] at this
    rw [Nat.lor_comm]
    exact this.symm
  rw [hlor, Int.toNat_natCast]
  simp

theorem decode_core (v L : Nat) (rest : List Nat) (hv : v < 2 ^ 31) (h1 : 1 ≤ L)
    (h8 : L ≤ 8) (hfit : v < 2 ^ (7 * L)) :
    readEBMLVarInt (((2 ^ (8 - L) + v / 256 ^ (L - 1)) :: natBE (L - 1) v) ++ rest) 0 =
      .ok ((v : Int), L) := by
  obtain ⟨n, rfl⟩ : ∃ n, L = n + 1 := ⟨L - 1, by omega⟩
  have h256 : (256 : Nat) ^ n = 2 ^ (8 * n) := by
    rw [show (256 : Nat) = 2 ^ 8 from rfl, ← pow_mul]
  have hhi_lt : v / 256 ^ n < 2 ^ (8 - (n + 1)) := by
    rw [Nat.div_lt_iff_lt_mul (by positivity)]
    calc v < 2 ^ (7 * (n + 1)) := hfit
      _ ≤ 2 ^ (8 - (n + 1)) * 256 ^ n := by
        rw [h256, ← pow_add]
        exact Nat.pow_le_pow_right (by norm_num) (by omega)
  set hi := v / 256 ^ n with hhi_def
  set marker := 2 ^ (8 - (n + 1)) + hi with hmarker_def
  have hmlt : marker < 2 ^ (9 - (n + 1)) := by
    have : (2 : Nat) ^ (9 - (n + 1)) = 2 ^ (8 - (n + 1)) * 2 := by
      rw [← pow_succ]
      congr 1
      omega
    omega
  have hm256 : marker < 256 := by
    have : (2 : Nat) ^ (9 - (n + 1)) ≤ 2 ^ 8 := Nat.pow_le_pow_right (by norm_num) (by omega)
    omega
  have hfirst : byteAt (marker :: (natBE n v ++ rest)) 0 = marker := by
    unfold byteAt
    simp [List.getD]
  show readEBMLVarInt (marker :: (natBE n v ++ rest)) 0 = _
  simp only [readEBMLVarInt]
  rw [hfirst]
  rw [vintLen_spec hm256 (by omega) (by omega) (Nat.le_add_right _ _) hmlt]
  rw [negBranch (by omega)]
  rw [jsShl_one (by omega)]
  have hcast : ((2 ^ (8 - (n + 1)) : Nat) : Int) - 1 = ((2 ^ (8 - (n + 1)) - 1 : Nat) : Int) := by
    have : (1 : Nat) ≤ 2 ^ (8 - (n + 1)) := Nat.one_le_two_pow
    omega
  rw [hcast, jsAnd_nat (by omega) (by
    have : (2 : Nat) ^ (8 - (n + 1)) ≤ 2 ^ 8 := Nat.pow_le_pow_right (by norm_num) (by omega)
    omega)]
  have hmask : marker &&& 2 ^ (8 - (n + 1)) - 1 = hi := by
    have h1' := Nat.and_pow_two_sub_one_eq_mod marker (8 - (n + 1))
    have h2' : marker % 2 ^ (8 - (n + 1)) = hi := by
      rw [hmarker_def, Nat.add_mod_left, Nat.mod_eq_of_lt hhi_lt]
    rw [h1', h2']
  rw [hmask]
  have hbytes : bytesAt (marker :: (natBE n v ++ rest)) ((0 : Int) + 1) (n + 1 - 1) =
      natBE n v := by
    rw [show ((0 : Int) + 1) = ((1 : Nat) : Int) from by norm_num]
    rw [bytesAt_eq _ 1 (n + 1 - 1) (by simp [natBE_length]; omega)]
    show ((natBE n v ++ rest).take (n + 1 - 1)) = natBE n v
    rw [show n + 1 - 1 = (natBE n v).length from by simp [natBE_length]]
    exact List.take_left _ _
  rw [hbytes]
  have hofbe : ofBE hi (natBE n v) = v := by
    rw [ofBE_natBE, hhi_def, mul_comm]
    exact Nat.div_add_mod v (256 ^ n)
  rw [assembleBE_eq _ _ (natBE_lt n v) (by rw [hofbe]; exact hv), hofbe]

theorem decodeVarNat_core (v L : Nat) (h1 : 1 ≤ L) (h8 : L ≤ 8)
    (hfit : v < 2 ^ (7 * L)) :
    decodeVarNat ((2 ^ (8 - L) + v / 256 ^ (L - 1)) :: natBE (L - 1) v) = some v := by
  obtain ⟨n, rfl⟩ : ∃ n, L = n + 1 := ⟨L - 1, by omega⟩
  have h256 : (256 : Nat) ^ n = 2 ^ (8 * n) := by
    rw [show (256 : Nat) = 2 ^ 8 from rfl, ← pow_mul]
  have hhi_lt : v / 256 ^ n < 2 ^ (8 - (n + 1)) := by
    rw [Nat.div_lt_iff_lt_mul (by positivity)]
    calc v < 2 ^ (7 * (n + 1)) := hfit
      _ ≤ 2 ^ (8 - (n + 1)) * 256 ^ n := by
        rw [h256, ← pow_add]
        exact Nat.pow_le_pow_right (by norm_num) (by omega)
  set hi := v / 256 ^ n with hhi_def
  set marker := 2 ^ (8 - (n + 1)) + hi with hmarker_def
  have hmlt : marker < 2 ^ (9 - (n + 1)) := by
    have : (2 : Nat) ^ (9 - (n + 1)) = 2 ^ (8 - (n + 1)) * 2 := by
      rw [← pow_succ]
      congr 1
      omega
    omega
  show (if vintLenPure marker ≤ 8 ∧ (natBE n v).length + 1 = vintLenPure marker then
      some (ofBE (marker % 2 ^ (8 - vintLenPure marker)) (natBE n v)) else none) = some v
  rw [vintLenPure_spec (by omega) (by omega) (Nat.le_add_right _ _) hmlt]
  rw [if_pos (by refine ⟨by omega, ?_⟩; simp [natBE_length])]
  have h2' : marker % 2 ^ (8 - (n + 1)) = hi := by
    rw [hmarker_def, Nat.add_mod_left, Nat.mod_eq_of_lt hhi_lt]
  rw [h2']
  have hofbe : ofBE hi (natBE n v) = v := by
    rw [ofBE_natBE, hhi_def, mul_comm]
    exact Nat.div_add_mod v (256 ^ n)
  rw [hofbe]

theorem getEBMLByteLength_cases (v : Nat) (hv : v < 2 ^ 31) :
    ∃ L, getEBMLByteLength (v : Int) = .ok L ∧ 1 ≤ L ∧ L ≤ 8 ∧ v < 2 ^ (7 * L) ∧
      (L = 1 ∨ 2 ^ (7 * (L - 1)) ≤ v) := by
  unfold getEBMLByteLength
  split_ifs with hA hB hC hD hE hF hG hH
  · exact ⟨1, rfl, by omega, by omega, by omega, by omega⟩
  · exact ⟨2, rfl, by omega, by omega, by omega, by omega⟩
  · exact ⟨3, rfl, by omega, by omega, by omega, by omega⟩
  · exact ⟨4, rfl, by omega, by omega, by omega, by omega⟩
  · exact ⟨5, rfl, by omega, by omega, by omega, by omega⟩
  · exfalso; omega
  · exfalso; omega
  · exfalso; omega
  · exfalso; omega

/-- The varint round trip on values below `2^31`: encoding succeeds with the
minimal length class and both the source decoder and the pure reference
decoder recover the value. -/
theorem varint_roundtrip (v : Nat) (hv : v < 2 ^ 31) :
    ∃ enc L, writeEBMLVarInt (v : Int) = .ok enc ∧ enc.length = L ∧
      getEBMLByteLength (v : Int) = .ok L ∧ 1 ≤ L ∧ L ≤ 8 ∧
      v < 2 ^ (7 * L) ∧ (L = 1 ∨ 2 ^ (7 * (L - 1)) ≤ v) ∧
      (∀ rest, readEBMLVarInt (enc ++ rest) 0 = .ok ((v : Int), L)) ∧
      decodeVarNat enc = some v := by
  obtain ⟨L, henc, h1, h8, hfit, hmin⟩ := getEBMLByteLength_cases v hv
  refine ⟨_, L, encode_core v L hv h1 h8 hfit henc, ?_, henc, h1, h8, hfit, hmin,
    fun rest => decode_core v L rest hv h1 h8 hfit, decodeVarNat_core v L h1 h8 hfit⟩
  simp [natBE_length]
  omega

/-! ## The float64 encoding of small integers -/

theorem log2Aux_eq_log2 (f n : Nat) (h : n ≤ f) : log2Aux f n = Nat.log2 n := by
  induction f generalizing n with
  | zero =>
    have : n = 0 := by omega
    subst this
    rw [Nat.log2]
    norm_num [log2Aux]
  | succ f ih =>
    rw [log2Aux, Nat.log2]
    by_cases h2 : 2 ≤ n
    · rw [if_pos h2, if_pos h2, ih (n / 2) (by omega)]
    · rw [if_neg h2, if_neg h2]

theorem nlog2_eq (n : Nat) : nlog2 n = Nat.log2 n := log2Aux_eq_log2 n n le_rfl

theorem f64Bytes_length (t : Nat) : (f64Bytes t).length = 8 := by
  unfold f64Bytes
  split_ifs
  · simp
  · exact natBE_length 8 _
  · exact natBE_length 8 _

/-- The float64 encoding of an integral value below `2^53` decodes back to
that value. -/
theorem decodeF64_f64Bytes (t : Nat) (h : t < 2 ^ 53) : decodeF64 (f64Bytes t) = some t := by
  by_cases h0 : t = 0
  · subst h0
    rfl
  · have hlog : 2 ^ Nat.log2 t ≤ t := Nat.log2_self_le h0
    have hlog2 : t < 2 ^ (Nat.log2 t + 1) := Nat.lt_log2_self
    have he52 : Nat.log2 t ≤ 52 := by
      by_contra hc
      have : (2 : Nat) ^ 53 ≤ 2 ^ Nat.log2 t := Nat.pow_le_pow_right (by norm_num) (by omega)
      omega
    have hpow_split : (2 : Nat) ^ Nat.log2 t * 2 ^ (52 - Nat.log2 t) = 2 ^ 52 := by
      rw [← pow_add]
      congr 1
      omega
    have hpow_hi : (2 : Nat) ^ (Nat.log2 t + 1) * 2 ^ (52 - Nat.log2 t) = 2 ^ 53 := by
      rw [← pow_add]
      congr 1
      omega
    have hm_lo : 2 ^ 52 ≤ t * 2 ^ (52 - Nat.log2 t) := by
      calc (2 : Nat) ^ 52 = 2 ^ Nat.log2 t * 2 ^ (52 - Nat.log2 t) := hpow_split.symm
        _ ≤ t * 2 ^ (52 - Nat.log2 t) := Nat.mul_le_mul_right _ hlog
    have hm_hi : t * 2 ^ (52 - Nat.log2 t) < 2 ^ 53 := by
      calc t * 2 ^ (52 - Nat.log2 t) < 2 ^ (Nat.log2 t + 1) * 2 ^ (52 - Nat.log2 t) :=
            (Nat.mul_lt_mul_right (Nat.two_pow_pos _)).mpr hlog2
        _ = 2 ^ 53 := hpow_hi
    have hm_eq : 2 ^ 52 + (t * 2 ^ (52 - Nat.log2 t) - 2 ^ 52) = t * 2 ^ (52 - Nat.log2 t) := by
      omega
    unfold f64Bytes
    rw [if_neg h0, nlog2_eq, if_pos he52]
    have hbits_lt : (1023 + Nat.log2 t) * 2 ^ 52 + (t * 2 ^ (52 - Nat.log2 t) - 2 ^ 52) <
        2 ^ 64 := by
      have h1 : (1023 + Nat.log2 t) * 2 ^ 52 ≤ 1075 * 2 ^ 52 := by
        apply Nat.mul_le_mul_right
        omega
      have h2 : (1075 : Nat) * 2 ^ 52 + 2 ^ 53 < 2 ^ 64 := by norm_num
      omega
    have hbits : ofBE 0
        (natBE 8 ((1023 + Nat.log2 t) * 2 ^ 52 + (t * 2 ^ (52 - Nat.log2 t) - 2 ^ 52))) =
        (1023 + Nat.log2 t) * 2 ^ 52 + (t * 2 ^ (52 - Nat.log2 t) - 2 ^ 52) := by
      rw [ofBE_natBE]
      rw [Nat.mod_eq_of_lt (by
        calc (1023 + Nat.log2 t) * 2 ^ 52 + (t * 2 ^ (52 - Nat.log2 t) - 2 ^ 52) < 2 ^ 64 :=
              hbits_lt
          _ ≤ 256 ^ 8 := by norm_num)]
      omega
    unfold decodeF64
    rw [if_pos (natBE_length 8 _), hbits]
    have hdiv : ((1023 + Nat.log2 t) * 2 ^ 52 + (t * 2 ^ (52 - Nat.log2 t) - 2 ^ 52)) / 2 ^ 52 =
        1023 + Nat.log2 t := by
      rw [Nat.mul_comm (1023 + Nat.log2 t) (2 ^ 52), Nat.mul_add_div (by positivity)]
      have : (t * 2 ^ (52 - Nat.log2 t) - 2 ^ 52) / 2 ^ 52 = 0 :=
        Nat.div_eq_of_lt (by omega)
      omega
    have hmod : ((1023 + Nat.log2 t) * 2 ^ 52 + (t * 2 ^ (52 - Nat.log2 t) - 2 ^ 52)) % 2 ^ 52 =
        t * 2 ^ (52 - Nat.log2 t) - 2 ^ 52 := by
      rw [Nat.mul_comm (1023 + Nat.log2 t) (2 ^ 52), Nat.mul_add_mod]
      exact Nat.mod_eq_of_lt (by omega)
    rw [negBranch (by omega), hdiv, hmod, if_pos (by omega)]
    rw [show 1075 - (1023 + Nat.log2 t) = 52 - Nat.log2 t from by omega]
    rw [hm_eq, Nat.mul_mod_left, if_pos rfl, Nat.mul_div_cancel t (by positivity)]

/-! ## Cue points: building and parsing -/

theorem minClass_eq {v L : Nat} (h1 : 1 ≤ L) (h8 : L ≤ 8) (hfit : v < 2 ^ (7 * L))
    (hmin : L = 1 ∨ 2 ^ (7 * (L - 1)) ≤ v) : minClass v = L := by
  unfold minClass
  obtain rfl | rfl | rfl | rfl | rfl | rfl | rfl | rfl :
      L = 1 ∨ L = 2 ∨ L = 3 ∨ L = 4 ∨ L = 5 ∨ L = 6 ∨ L = 7 ∨ L = 8 := by omega
  · rw [if_pos (by omega)]
  · rw [negBranch (by omega), if_pos (by omega)]
  · rw [negBranch (by omega), negBranch (by omega), if_pos (by omega)]
  · rw [negBranch (by omega), negBranch (by omega), negBranch (by omega), if_pos (by omega)]
  · rw [negBranch (by omega), negBranch (by omega), negBranch (by omega), negBranch (by omega),
      if_pos (by omega)]
  · rw [negBranch (by omega), negBranch (by omega), negBranch (by omega), negBranch (by omega),
      negBranch (by omega), if_pos (by omega)]
  · rw [negBranch (by omega), negBranch (by omega), negBranch (by omega), negBranch (by omega),
      negBranch (by omega), negBranch (by omega), if_pos (by omega)]
  · rw [negBranch (by omega), negBranch (by omega), negBranch (by omega), negBranch (by omega),
      negBranch (by omega), negBranch (by omega), negBranch (by omega)]

theorem minClass_spec (v : Nat) (hv : v < 2 ^ 31) :
    1 ≤ minClass v ∧ minClass v ≤ 8 ∧ v < 2 ^ (7 * minClass v) ∧
      getEBMLByteLength (v : Int) = .ok (minClass v) := by
  obtain ⟨L, henc, h1, h8, hfit, hmin⟩ := getEBMLByteLength_cases v hv
  have heq := minClass_eq h1 h8 hfit hmin
  rw [heq]
  exact ⟨h1, h8, hfit, henc⟩

theorem pureVarint_length (v : Nat) : (pureVarint v).length = minClass v := by
  have h1 : 1 ≤ minClass v := by
    unfold minClass
    split_ifs <;> omega
  simp [pureVarint, natBE_length]
  omega

theorem writeEBMLVarInt_eq_pureVarint (v : Nat) (hv : v < 2 ^ 31) :
    writeEBMLVarInt (v : Int) = .ok (pureVarint v) := by
  obtain ⟨h1, h8, hfit, henc⟩ := minClass_spec v hv
  exact encode_core v (minClass v) hv h1 h8 hfit henc

theorem decodeVarNat_pureVarint (v : Nat) (hv : v < 2 ^ 31) :
    decodeVarNat (pureVarint v) = some v := by
  obtain ⟨h1, h8, hfit, _⟩ := minClass_spec v hv
  exact decodeVarNat_core v (minClass v) h1 h8 hfit

theorem writeEBMLVarInt_small {v : Nat} (hv : v ≤ 0x7F) :
    writeEBMLVarInt (v : Int) = .ok [0x80 + v] := by
  have h := writeEBMLVarInt_eq_pureVarint v (by omega)
  have hm : minClass v = 1 := minClass_eq le_rfl (by omega) (by omega) (Or.inl rfl)
  rw [h]
  unfold pureVarint
  rw [hm]
  simp [natBE]

theorem createCuePoint_eq (t : Nat) (o : Int) (ho0 : 0 ≤ o) (ho : o < 2 ^ 31) :
    createCuePoint t o = .ok (cuePointBytes t o.toNat) := by
  obtain ⟨v, rfl⟩ : ∃ v : Nat, o = (v : Nat) := ⟨o.toNat, (Int.toNat_of_nonneg ho0).symm⟩
  have hv : v < 2 ^ 31 := by exact_mod_cast ho
  obtain ⟨h1, h8, hfit, henc⟩ := minClass_spec v hv
  have hw8 : writeEBMLVarInt (8 : Int) = .ok [0x88] := by decide
  have hw1 : writeEBMLVarInt (1 : Int) = .ok [0x81] := by decide
  have hcast2 : (1 + 1 + ((minClass v : Nat) : Int)) = ((2 + minClass v : Nat) : Int) := by
    push_cast
    ring
  have hw2L : writeEBMLVarInt (1 + 1 + ((minClass v : Nat) : Int)) =
      .ok [0x80 + (2 + minClass v)] := by
    rw [hcast2, writeEBMLVarInt_small (by omega)]
  have hwL : writeEBMLVarInt ((minClass v : Nat) : Int) = .ok [0x80 + minClass v] :=
    writeEBMLVarInt_small (by omega)
  have hwV : writeEBMLVarInt (v : Int) = .ok (pureVarint v) := writeEBMLVarInt_eq_pureVarint v hv
  have hplen : ([0xB3] ++ [0x88] ++ f64Bytes t ++ [0xB7] ++ [0x80 + (2 + minClass v)] ++
      [0xF7] ++ [0x81] ++ [1] ++ [0xF1] ++ [0x80 + minClass v] ++ pureVarint v).length =
      17 + minClass v := by
    simp [f64Bytes_length, pureVarint_length]
    omega
  have hwP : writeEBMLVarInt ((([0xB3] ++ [0x88] ++ f64Bytes t ++ [0xB7] ++
      [0x80 + (2 + minClass v)] ++ [0xF7] ++ [0x81] ++ [1] ++ [0xF1] ++ [0x80 + minClass v] ++
      pureVarint v).length : Int)) = .ok [0x80 + (17 + minClass v)] := by
    rw [hplen, writeEBMLVarInt_small (by omega)]
  simp only [createCuePoint, hw8, henc, hw2L, hw1, hwL, hwV, hwP, bind, Except.bind, pure,
    Except.pure, Int.toNat_natCast]
  unfold cuePointBytes
  simp [List.append_assoc]

theorem exists_eight (l : List Nat) (h : l.length = 8) :
    ∃ a b c d e f g i, l = [a, b, c, d, e, f, g, i] := by
  rcases l with _ | ⟨a, _ | ⟨b, _ | ⟨c, _ | ⟨d, _ | ⟨e, _ | ⟨f, _ | ⟨g, _ | ⟨i, _ | ⟨j, l⟩⟩⟩⟩⟩⟩⟩⟩⟩ <;>
    simp at h
  exact ⟨a, b, c, d, e, f, g, i, rfl⟩

theorem parseCuePoint1_cuePointBytes (t o : Nat) (rest : List Nat) (ht : t < 2 ^ 53)
    (ho : o < 2 ^ 31) :
    parseCuePoint1 (cuePointBytes t o ++ rest) = some ((t, 1, o), rest) := by
  obtain ⟨h1, h8, hfit, _⟩ := minClass_spec o ho
  obtain ⟨b0, b1, b2, b3, b4, b5, b6, b7, hb⟩ := exists_eight (f64Bytes t) (f64Bytes_length t)
  have hCORElen : (0xB3 :: 0x88 :: b0 :: b1 :: b2 :: b3 :: b4 :: b5 :: b6 :: b7 ::
      0xB7 :: (0x80 + (2 + minClass o)) :: 0xF7 :: 0x81 :: 1 :: 0xF1 ::
      (0x80 + minClass o) :: pureVarint o).length = 17 + minClass o := by
    simp [pureVarint_length]
    omega
  have hcons : cuePointBytes t o ++ rest =
      0xBB :: (0x80 + (17 + minClass o)) ::
        ((0xB3 :: 0x88 :: b0 :: b1 :: b2 :: b3 :: b4 :: b5 :: b6 :: b7 ::
          0xB7 :: (0x80 + (2 + minClass o)) :: 0xF7 :: 0x81 :: 1 :: 0xF1 ::
          (0x80 + minClass o) :: pureVarint o) ++ rest) := by
    rw [cuePointBytes, hb]
    simp [List.append_assoc]
  rw [hcons]
  simp only [parseCuePoint1]
  rw [if_pos (by
    constructor
    · omega
    · rw [List.length_append, hCORElen]
      omega)]
  rw [show 0x80 + (17 + minClass o) - 0x80 = 17 + minClass o from by omega]
  rw [← hCORElen, List.take_left, List.drop_left]
  simp only []
  rw [← hb, decodeF64_f64Bytes t ht, decodeVarNat_pureVarint o ho]

theorem cuePointBytes_length (t o : Nat) :
    (cuePointBytes t o).length = 19 + minClass o := by
  simp [cuePointBytes, f64Bytes_length, pureVarint_length]
  omega

theorem buildCuesPayload_eq (cs : List (Nat × Int))
    (h : ∀ c ∈ cs, 0 ≤ c.2 ∧ c.2 < 2 ^ 31) :
    buildCuesPayload cs =
      .ok ((cs.map fun c => cuePointBytes c.1 c.2.toNat).flatten) := by
  induction cs with
  | nil => rfl
  | cons c cs ih =>
    have hc := h c (List.mem_cons_self c cs)
    have hrest : ∀ x ∈ cs, 0 ≤ x.2 ∧ x.2 < 2 ^ 31 :=
      fun x hx => h x (List.mem_cons_of_mem c hx)
    show (do
      let cp ← createCuePoint c.1 c.2
      let tl ← buildCuesPayload cs
      Except.ok (cp ++ tl)) = _
    rw [createCuePoint_eq c.1 c.2 hc.1 hc.2, ih hrest]
    simp [bind, Except.bind]

theorem parseCuesAux_points (cs : List (Nat × Int))
    (h : ∀ c ∈ cs, c.1 < 2 ^ 53 ∧ 0 ≤ c.2 ∧ c.2 < 2 ^ 31) :
    ∀ fuel, ((cs.map fun c => cuePointBytes c.1 c.2.toNat).flatten).length < fuel →
      parseCuesAux fuel ((cs.map fun c => cuePointBytes c.1 c.2.toNat).flatten) =
        some (cs.map fun c => (c.1, 1, c.2.toNat)) := by
  induction cs with
  | nil => intro fuel _; cases fuel <;> rfl
  | cons c cs ih =>
    intro fuel hfuel
    have hc := h c (List.mem_cons_self c cs)
    have hrest : ∀ x ∈ cs, x.1 < 2 ^ 53 ∧ 0 ≤ x.2 ∧ x.2 < 2 ^ 31 :=
      fun x hx => h x (List.mem_cons_of_mem c hx)
    have hv : c.2.toNat < 2 ^ 31 := by omega
    have hm1 : 1 ≤ minClass c.2.toNat := (minClass_spec _ hv).1
    have hcpl : (cuePointBytes c.1 c.2.toNat).length = 19 + minClass c.2.toNat :=
      cuePointBytes_length _ _
    obtain ⟨fuel, rfl⟩ : ∃ f, fuel = f + 1 := by
      rcases fuel with _ | f
      · omega
      · exact ⟨f, rfl⟩
    have hflat : ((c :: cs).map fun x => cuePointBytes x.1 x.2.toNat).flatten =
        cuePointBytes c.1 c.2.toNat ++ (cs.map fun x => cuePointBytes x.1 x.2.toNat).flatten := by
      simp
    rw [hflat] at hfuel ⊢
    have hparse := parseCuePoint1_cuePointBytes c.1 c.2.toNat
      ((cs.map fun x => cuePointBytes x.1 x.2.toNat).flatten) hc.1 hv
    have hne : cuePointBytes c.1 c.2.toNat ++
        (cs.map fun x => cuePointBytes x.1 x.2.toNat).flatten ≠ [] := by
      intro hcontra
      have := congrArg List.length hcontra
      rw [List.length_append, hcpl] at this
      simp at this
    rw [show parseCuesAux (fuel + 1) (cuePointBytes c.1 c.2.toNat ++
        (cs.map fun x => cuePointBytes x.1 x.2.toNat).flatten) =
      match parseCuePoint1 (cuePointBytes c.1 c.2.toNat ++
          (cs.map fun x => cuePointBytes x.1 x.2.toNat).flatten) with
      | some (x, rem) => (parseCuesAux fuel rem).map (x :: ·)
      | none => none from by
        rcases hcp : cuePointBytes c.1 c.2.toNat ++
            (cs.map fun x => cuePointBytes x.1 x.2.toNat).flatten with _ | ⟨y, ys⟩
        · exact absurd hcp hne
        · rfl]
    rw [hparse]
    have hlen2 : ((cs.map fun x => cuePointBytes x.1 x.2.toNat).flatten).length < fuel := by
      rw [List.length_append, hcpl] at hfuel
      omega
    simp only []
    rw [ih hrest fuel hlen2]
    rfl

/-- Parsing the full cues payload built from a cluster list recovers, in
order, one `(time, track 1, clusterPosition)` record per cluster. -/
theorem parseCues_buildCuesPayload (cs : List (Nat × Int))
    (h : ∀ c ∈ cs, c.1 < 2 ^ 53 ∧ 0 ≤ c.2 ∧ c.2 < 2 ^ 31) :
    ∃ P, buildCuesPayload cs = .ok P ∧
      parseCues P = some (cs.map fun c => (c.1, 1, c.2.toNat)) := by
  refine ⟨_, buildCuesPayload_eq cs (fun c hc => (h c hc).2), ?_⟩
  exact parseCuesAux_points cs h _ (by omega)

/-! ## The duration-patch loop and the writer -/

theorem patchLoop_chain (buf dur8 : List Nat) (items : List PItem) :
    ∀ fuel (w io e : Int), Chain buf w e items → items.length < fuel →
      patchLoop buf dur8 fuel w io e =
        .ok (patchPartsOf buf dur8 io items, patchIoOf io items) := by
  induction items with
  | nil =>
    intro fuel w io e hchain hfuel
    obtain ⟨f, rfl⟩ : ∃ f, fuel = f + 1 := by
      rcases fuel with _ | f
      · omega
      · exact ⟨f, rfl⟩
    cases hchain with
    | nil hle =>
      show patchLoop buf dur8 (f + 1) w io e = _
      unfold patchLoop
      rw [negBranch (by omega)]
      rfl
  | cons it rest ih =>
    intro fuel w io e hchain hfuel
    obtain ⟨wit, idv, idl, sv, sl⟩ := it
    obtain ⟨f, rfl⟩ : ∃ f, fuel = f + 1 := by
      rcases fuel with _ | f
      · omega
      · exact ⟨f, rfl⟩
    cases hchain with
    | cons hlt hid hsz hrest =>
      show patchLoop buf dur8 (f + 1) w io e = _
      unfold patchLoop
      rw [if_pos hlt]
      simp only [hid, hsz, bind, Except.bind]
      have hflen : rest.length < f := by
        simp only [List.length_cons] at hfuel
        omega
      by_cases hd : idv = 0x4489
      · rw [if_pos hd]
        rw [ih f _ _ e hrest hflen]
        simp only [patchPartsOf, patchIoOf, if_pos hd, pure, Except.pure]
      · rw [if_neg hd]
        rw [ih f _ _ e hrest hflen]
        simp only [patchPartsOf, patchIoOf, if_neg hd]

theorem patchPartsOf_no_dur (buf dur8 : List Nat) (items : List PItem)
    (h : ∀ it ∈ items, it.idv ≠ 0x4489) :
    ∀ io, patchPartsOf buf dur8 io items = [] ∧ patchIoOf io items = io := by
  induction items with
  | nil => intro io; exact ⟨rfl, rfl⟩
  | cons it rest ih =>
    intro io
    have hit : it.idv ≠ 0x4489 := h it (List.mem_cons_self it rest)
    have hr : ∀ x ∈ rest, x.idv ≠ 0x4489 := fun x hx => h x (List.mem_cons_of_mem it hx)
    unfold patchPartsOf patchIoOf
    rw [if_neg hit, if_neg hit]
    exact ih hr io

theorem patchPartsOf_single_dur (buf dur8 : List Nat) (pre post : List PItem) (dit : PItem)
    (hpre : ∀ it ∈ pre, it.idv ≠ 0x4489) (hpost : ∀ it ∈ post, it.idv ≠ 0x4489)
    (hdit : dit.idv = 0x4489) :
    ∀ io, patchPartsOf buf dur8 io (pre ++ dit :: post) =
        [jsSlice buf io (dit.w + (dit.idl : Int) + (dit.sl : Int)), dur8] ∧
      patchIoOf io (pre ++ dit :: post) =
        dit.w + (dit.idl : Int) + (dit.sl : Int) + dit.sv := by
  induction pre with
  | nil =>
    intro io
    simp only [List.nil_append, patchPartsOf, patchIoOf]
    rw [if_pos hdit, if_pos hdit]
    obtain ⟨hp, hio⟩ := patchPartsOf_no_dur buf dur8 post hpost
      (dit.w + (dit.idl : Int) + (dit.sl : Int) + dit.sv)
    rw [hp, hio]
    exact ⟨rfl, rfl⟩
  | cons it pre ih =>
    intro io
    have hit : it.idv ≠ 0x4489 := hpre it (List.mem_cons_self it pre)
    have hp : ∀ x ∈ pre, x.idv ≠ 0x4489 := fun x hx => hpre x (List.mem_cons_of_mem it hx)
    show patchPartsOf buf dur8 io (it :: (pre ++ dit :: post)) = _ ∧
      patchIoOf io (it :: (pre ++ dit :: post)) = _
    simp only [patchPartsOf, patchIoOf]
    rw [if_neg hit, if_neg hit]
    exact ih hp io

/-! ## JavaScript slices on natural-number positions -/

theorem jsSlice_nat (buf : List Nat) (a b : Nat) (hb : b ≤ buf.length) :
    jsSlice buf (a : Int) (b : Int) = (buf.drop a).take (b - a) := by
  simp only [jsSlice]
  rw [negBranch (by omega), negBranch (by omega)]
  have hhi : min ((b : Nat) : Int) ((buf.length : Nat) : Int) = (b : Int) := by omega
  by_cases hc : a ≤ buf.length
  · have hlo : min ((a : Nat) : Int) ((buf.length : Nat) : Int) = (a : Int) := by omega
    rw [hlo, hhi, show ((a : Nat) : Int).toNat = a from by omega,
      show ((b : Int) - (a : Int)).toNat = b - a from by omega]
  · have hlo : min ((a : Nat) : Int) ((buf.length : Nat) : Int) = (buf.length : Int) := by
      omega
    rw [hlo, hhi, show ((buf.length : Nat) : Int).toNat = buf.length from by omega]
    rw [List.drop_length, List.drop_eq_nil_of_le (by omega)]
    simp

theorem jsSliceFrom_nat (buf : List Nat) (a : Nat) :
    jsSliceFrom buf (a : Int) = buf.drop a := by
  unfold jsSliceFrom
  rw [jsSlice_nat buf a buf.length le_rfl]
  exact List.take_of_length_le (by rw [List.length_drop])

theorem jsSlice_zero (buf : List Nat) (b : Nat) (hb : b ≤ buf.length) :
    jsSlice buf 0 (b : Int) = buf.take b := by
  rw [show (0 : Int) = ((0 : Nat) : Int) from rfl, jsSlice_nat buf 0 b hb]
  simp

/-! ## The main pass: no-op guard, writer shape, and inversion -/

theorem fixCore_noop (buf dur8 : List Nat) (st : ScanSt) (hscan : scan buf = .ok st)
    (h : st.seg = -1 ∨ st.info = -1 ∨ st.tcs = -1) : fixCore buf dur8 = .ok buf := by
  simp only [fixCore, hscan, bind, Except.bind]
  rw [if_pos h]
  rfl

theorem fixCore_writer (buf dur8 : List Nat) (st : ScanSt) (E cut : Int)
    (items : List PItem) (P csz : List Nat)
    (hscan : scan buf = .ok st)
    (hseg : st.seg ≠ -1) (hinfo : st.info ≠ -1) (htcs : st.tcs ≠ -1)
    (hE : infoEndCalc buf st.info = .ok E)
    (hchain : Chain buf st.info E items)
    (hflen : items.length < buf.length + 1)
    (hcut : cutCalc buf st.seg st.cues = .ok cut)
    (hP : buildCuesPayload st.clusters = .ok P)
    (hcsz : writeEBMLVarInt ((P.length : Nat) : Int) = .ok csz) :
    fixCore buf dur8 = .ok (List.flatten ([jsSlice buf 0 st.info] ++
      (if st.durOff = -1 then [[0x44, 0x89], [0x88], dur8] else []) ++
      patchPartsOf buf dur8 st.info items ++
      [jsSlice buf (patchIoOf st.info items) cut, [0x1C, 0x53, 0xBB, 0x6B], csz, P,
        jsSliceFrom buf cut])) := by
  have hnoguard : ¬(st.seg = -1 ∨ st.info = -1 ∨ st.tcs = -1) :=
    not_or.mpr ⟨hseg, not_or.mpr ⟨hinfo, htcs⟩⟩
  have hw8 : writeEBMLVarInt (8 : Int) = .ok [0x88] := by decide
  have hpatch := patchLoop_chain buf dur8 items (buf.length + 1) st.info st.info E hchain hflen
  simp only [fixCore, hscan, bind, Except.bind]
  rw [if_neg hnoguard]
  by_cases hdo : st.durOff = -1
  · rw [if_pos hdo, if_pos hdo]
    simp only [hw8, hE, hpatch, hcut, hP, hcsz, bind, Except.bind, pure, Except.pure]
  · rw [if_neg hdo, if_neg hdo]
    simp only [hE, hpatch, hcut, hP, hcsz, bind, Except.bind, pure, Except.pure]

theorem fixCore_inv (buf dur8 out : List Nat) (st : ScanSt)
    (hscan : scan buf = .ok st)
    (hseg : st.seg ≠ -1) (hinfo : st.info ≠ -1) (htcs : st.tcs ≠ -1)
    (hfix : fixCore buf dur8 = .ok out) :
    ∃ pre cut P csz,
      cutCalc buf st.seg st.cues = .ok cut ∧
      buildCuesPayload st.clusters = .ok P ∧
      writeEBMLVarInt ((P.length : Nat) : Int) = .ok csz ∧
      out = pre ++ [0x1C, 0x53, 0xBB, 0x6B] ++ csz ++ P ++ jsSliceFrom buf cut := by
  have hnoguard : ¬(st.seg = -1 ∨ st.info = -1 ∨ st.tcs = -1) :=
    not_or.mpr ⟨hseg, not_or.mpr ⟨hinfo, htcs⟩⟩
  have hw8 : writeEBMLVarInt (8 : Int) = .ok [0x88] := by decide
  simp only [fixCore, hscan, bind, Except.bind] at hfix
  rw [if_neg hnoguard] at hfix
  by_cases hdo : st.durOff = -1
  · rw [if_pos hdo] at hfix
    simp only [hw8, bind, Except.bind, pure, Except.pure] at hfix
    cases hE : infoEndCalc buf st.info with
    | error e => simp only [hE] at hfix; exact absurd hfix (by simp)
    | ok E =>
      simp only [hE] at hfix
      cases hpr : patchLoop buf dur8 (buf.length + 1) st.info st.info E with
      | error e => simp only [hpr] at hfix; exact absurd hfix (by simp)
      | ok pr =>
        simp only [hpr] at hfix
        cases hcut : cutCalc buf st.seg st.cues with
        | error e => simp only [hcut] at hfix; exact absurd hfix (by simp)
        | ok cut =>
          simp only [hcut] at hfix
          cases hP : buildCuesPayload st.clusters with
          | error e => simp only [hP] at hfix; exact absurd hfix (by simp)
          | ok P =>
            simp only [hP] at hfix
            cases hcsz : writeEBMLVarInt ((P.length : Nat) : Int) with
            | error e => simp only [hcsz] at hfix; exact absurd hfix (by simp)
            | ok csz =>
              simp only [hcsz] at hfix
              simp only [Except.ok.injEq] at hfix
              refine ⟨jsSlice buf 0 st.info ++ ([0x44, 0x89] ++ [0x88] ++ dur8) ++
                pr.1.flatten ++ jsSlice buf pr.2 cut, cut, P, csz, rfl, rfl, hcsz, ?_⟩
              rw [← hfix]
              simp [List.flatten_append, List.append_assoc]
  · rw [if_neg hdo] at hfix
    simp only [bind, Except.bind, pure, Except.pure] at hfix
    cases hE : infoEndCalc buf st.info with
    | error e => simp only [hE] at hfix; exact absurd hfix (by simp)
    | ok E =>
      simp only [hE] at hfix
      cases hpr : patchLoop buf dur8 (buf.length + 1) st.info st.info E with
      | error e => simp only [hpr] at hfix; exact absurd hfix (by simp)
      | ok pr =>
        simp only [hpr] at hfix
        cases hcut : cutCalc buf st.seg st.cues with
        | error e => simp only [hcut] at hfix; exact absurd hfix (by simp)
        | ok cut =>
          simp only [hcut] at hfix
          cases hP : buildCuesPayload st.clusters with
          | error e => simp only [hP] at hfix; exact absurd hfix (by simp)
          | ok P =>
            simp only [hP] at hfix
            cases hcsz : writeEBMLVarInt ((P.length : Nat) : Int) with
            | error e => simp only [hcsz] at hfix; exact absurd hfix (by simp)
            | ok csz =>
              simp only [hcsz] at hfix
              simp only [Except.ok.injEq] at hfix
              refine ⟨jsSlice buf 0 st.info ++ pr.1.flatten ++ jsSlice buf pr.2 cut,
                cut, P, csz, rfl, rfl, hcsz, ?_⟩
              rw [← hfix]
              simp [List.flatten_append, List.append_assoc]

/-! ## The chain checker and the encoder's 2^56 threshold -/

theorem chainCheck_sound (buf : List Nat) :
    ∀ (items : List PItem) (w e : Int),
      chainCheck buf w e items = true → Chain buf w e items := by
  intro items
  induction items with
  | nil =>
    intro w e h
    unfold chainCheck at h
    rw [decide_eq_true_eq] at h
    exact Chain.nil h
  | cons it rest ih =>
    intro w e h
    obtain ⟨wi, idv, idl, sv, sl⟩ := it
    unfold chainCheck at h
    rw [Bool.and_eq_true, Bool.and_eq_true, Bool.and_eq_true, Bool.and_eq_true] at h
    obtain ⟨⟨⟨⟨hwe, hwi⟩, hid⟩, hsz⟩, hrest⟩ := h
    rw [decide_eq_true_eq] at hwe hwi
    subst hwi
    cases hr1 : readEBMLVarInt buf wi with
    | error e1 => simp only [hr1] at hid; exact absurd hid (by simp)
    | ok r1 =>
      simp only [hr1, decide_eq_true_eq] at hid
      cases hr2 : readEBMLVarInt buf (wi + ((idl : Nat) : Int)) with
      | error e2 => simp only [hr2] at hsz; exact absurd hsz (by simp)
      | ok r2 =>
        simp only [hr2, decide_eq_true_eq] at hsz
        have h1 : readEBMLVarInt buf wi = .ok (idv, idl) := by rw [hr1, ← hid]
        have h2 : readEBMLVarInt buf (wi + ((idl : Nat) : Int)) = .ok (sv, sl) := by
          rw [hr2, ← hsz]
        exact Chain.cons hwe h1 h2 (ih _ _ hrest)

theorem getEBMLByteLength_ok56 (v : Nat) (hv : v < 2 ^ 56) :
    ∃ L, getEBMLByteLength ((v : Nat) : Int) = .ok L := by
  unfold getEBMLByteLength
  split_ifs with hA hB hC hD hE hF hG hH
  · exact ⟨1, rfl⟩
  · exact ⟨2, rfl⟩
  · exact ⟨3, rfl⟩
  · exact ⟨4, rfl⟩
  · exact ⟨5, rfl⟩
  · exact ⟨6, rfl⟩
  · exact ⟨7, rfl⟩
  · exact ⟨8, rfl⟩
  · exfalso; omega

theorem getEBMLByteLength_err56 (v : Nat) (hv : 2 ^ 56 ≤ v) :
    getEBMLByteLength ((v : Nat) : Int) =
      .error ⟨"Error", "EBML VINT size exceeded."⟩ := by
  unfold getEBMLByteLength
  split_ifs with hA hB hC hD hE hF hG hH
  all_goals try rfl
  all_goals exfalso; omega

theorem writeEBMLVarInt_err56 (v : Nat) (hv : 2 ^ 56 ≤ v) :
    writeEBMLVarInt ((v : Nat) : Int) =
      .error ⟨"Error", "EBML VINT size exceeded."⟩ := by
  simp only [writeEBMLVarInt, getEBMLByteLength_err56 v hv, bind, Except.bind]

theorem writeEBMLVarInt_ok56 (v : Nat) (hv : v < 2 ^ 56) :
    ∃ enc, writeEBMLVarInt ((v : Nat) : Int) = .ok enc := by
  obtain ⟨L, hL⟩ := getEBMLByteLength_ok56 v hv
  simp only [writeEBMLVarInt, hL, bind, Except.bind]
  cases hwb : writeBytes L ((v : Nat) : Int) with
  | nil => exact ⟨[], rfl⟩
  | cons b rest => exact ⟨_, rfl⟩

/-! ## The two shapes the writer can produce on a clean walk -/

theorem writer_shape_insert (buf dur8 : List Nat) (st : ScanSt) (E : Int)
    (items : List PItem) (P csz : List Nat) (iN cN : Nat)
    (hscan : scan buf = .ok st)
    (hseg : st.seg ≠ -1) (htcs : st.tcs ≠ -1)
    (hiN : st.info = ((iN : Nat) : Int))
    (hE : infoEndCalc buf st.info = .ok E)
    (hchain : Chain buf st.info E items)
    (hflen : items.length < buf.length + 1)
    (hcut : cutCalc buf st.seg st.cues = .ok ((cN : Nat) : Int))
    (hP : buildCuesPayload st.clusters = .ok P)
    (hcsz : writeEBMLVarInt ((P.length : Nat) : Int) = .ok csz)
    (hcN : cN ≤ buf.length)
    (hdo : st.durOff = -1)
    (hnod : ∀ it ∈ items, it.idv ≠ 0x4489)
    (hic : iN ≤ cN) :
    fixCore buf dur8 = .ok (buf.take iN ++ [0x44, 0x89, 0x88] ++ dur8 ++
      (buf.drop iN).take (cN - iN) ++ [0x1C, 0x53, 0xBB, 0x6B] ++ csz ++ P ++
      buf.drop cN) := by
  have hinfo : st.info ≠ -1 := by rw [hiN]; omega
  have hw := fixCore_writer buf dur8 st E ((cN : Nat) : Int) items P csz hscan hseg hinfo
    htcs hE hchain hflen hcut hP hcsz
  obtain ⟨hpp, hio⟩ := patchPartsOf_no_dur buf dur8 items hnod st.info
  rw [hw]
  congr 1
  rw [if_pos hdo, hpp, hio, hiN]
  rw [jsSlice_zero buf iN (by omega), jsSlice_nat buf iN cN hcN, jsSliceFrom_nat buf cN]
  simp [List.flatten, List.append_assoc]

theorem writer_shape_patch (buf dur8 : List Nat) (st : ScanSt) (E : Int)
    (items : List PItem) (P csz : List Nat) (iN cN hN : Nat)
    (hscan : scan buf = .ok st)
    (hseg : st.seg ≠ -1) (htcs : st.tcs ≠ -1)
    (hiN : st.info = ((iN : Nat) : Int))
    (hE : infoEndCalc buf st.info = .ok E)
    (hchain : Chain buf st.info E items)
    (hflen : items.length < buf.length + 1)
    (hcut : cutCalc buf st.seg st.cues = .ok ((cN : Nat) : Int))
    (hP : buildCuesPayload st.clusters = .ok P)
    (hcsz : writeEBMLVarInt ((P.length : Nat) : Int) = .ok csz)
    (hcN : cN ≤ buf.length)
    (hdo : st.durOff ≠ -1)
    (hsplit : ∃ pre dit post, items = pre ++ dit :: post ∧
      (∀ it ∈ pre, it.idv ≠ 0x4489) ∧ (∀ it ∈ post, it.idv ≠ 0x4489) ∧
      dit.idv = 0x4489 ∧ dit.sv = 8 ∧
      dit.w + (dit.idl : Int) + (dit.sl : Int) = ((hN : Nat) : Int))
    (hih : iN ≤ hN) (hhc : hN + 8 ≤ cN) :
    fixCore buf dur8 = .ok (buf.take hN ++ dur8 ++
      (buf.drop (hN + 8)).take (cN - (hN + 8)) ++ [0x1C, 0x53, 0xBB, 0x6B] ++ csz ++ P ++
      buf.drop cN) := by
  obtain ⟨pre, dit, post, hitems, hpre, hpost, hditv, hsv8, hhN⟩ := hsplit
  have hinfo : st.info ≠ -1 := by rw [hiN]; omega
  have hw := fixCore_writer buf dur8 st E ((cN : Nat) : Int) items P csz hscan hseg hinfo
    htcs hE hchain hflen hcut hP hcsz
  rw [hitems] at hw
  obtain ⟨hpp, hio⟩ := patchPartsOf_single_dur buf dur8 pre post dit hpre hpost hditv st.info
  rw [hw]
  congr 1
  rw [if_neg hdo, hpp, hio]
  have hioN : dit.w + (dit.idl : Int) + (dit.sl : Int) + dit.sv = ((hN + 8 : Nat) : Int) := by
    rw [hsv8, hhN]; omega
  rw [hioN, hhN, hiN]
  rw [jsSlice_zero buf iN (by omega), jsSlice_nat buf iN hN (by omega),
    jsSlice_nat buf (hN + 8) cN hcN, jsSliceFrom_nat buf cN]
  have htk : buf.take hN = buf.take iN ++ (buf.drop iN).take (hN - iN) := by
    rw [show buf.take hN = buf.take (iN + (hN - iN)) from by rw [Nat.add_sub_cancel' hih],
      List.take_add]
  rw [htk]
  simp [List.flatten, List.append_assoc]

/-! ## The claims -/

/-- C1: amended byte-preservation statement.  When the scan succeeds, the
element walk of the patch loop is clean (either no duration element on the
walk and none recorded by the scan, or exactly one with 8 content bytes),
and the cut point is a position between the patched region and the end of
the buffer, the output is the input with only the duration bytes replaced
(or a fresh 11-byte duration element inserted at the metadata content
start) and the new index element spliced in at the cut: every other byte is
copied verbatim, as the `take`/`drop` decomposition shows.  The original
universal claim is false: see the counterexample, where the garbage cut
position duplicates part of the input instead of preserving it. -/
theorem repair_output_shape (buf dur8 : List Nat) (st : ScanSt) (E : Int)
    (items : List PItem) (P csz : List Nat) (iN cN hN : Nat)
    (hscan : scan buf = .ok st)
    (hseg : st.seg ≠ -1) (htcs : st.tcs ≠ -1)
    (hiN : st.info = ((iN : Nat) : Int))
    (hE : infoEndCalc buf st.info = .ok E)
    (hchain : Chain buf st.info E items)
    (hflen : items.length < buf.length + 1)
    (hcut : cutCalc buf st.seg st.cues = .ok ((cN : Nat) : Int))
    (hP : buildCuesPayload st.clusters = .ok P)
    (hcsz : writeEBMLVarInt ((P.length : Nat) : Int) = .ok csz)
    (hcN : cN ≤ buf.length)
    (hcase : (st.durOff = -1 ∧ (∀ it ∈ items, it.idv ≠ 0x4489) ∧ iN ≤ cN) ∨
      (st.durOff ≠ -1 ∧ iN ≤ hN ∧ hN + 8 ≤ cN ∧
        ∃ pre dit post, items = pre ++ dit :: post ∧
          (∀ it ∈ pre, it.idv ≠ 0x4489) ∧ (∀ it ∈ post, it.idv ≠ 0x4489) ∧
          dit.idv = 0x4489 ∧ dit.sv = 8 ∧
          dit.w + (dit.idl : Int) + (dit.sl : Int) = ((hN : Nat) : Int))) :
    fixCore buf dur8 = .ok (if st.durOff = -1 then
        buf.take iN ++ [0x44, 0x89, 0x88] ++ dur8 ++ (buf.drop iN).take (cN - iN) ++
          [0x1C, 0x53, 0xBB, 0x6B] ++ csz ++ P ++ buf.drop cN
      else
        buf.take hN ++ dur8 ++ (buf.drop (hN + 8)).take (cN - (hN + 8)) ++
          [0x1C, 0x53, 0xBB, 0x6B] ++ csz ++ P ++ buf.drop cN) := by
  rcases hcase with ⟨hdo, hnod, hic⟩ | ⟨hdo, hih, hhc, hsplit⟩
  · rw [if_pos hdo]
    exact writer_shape_insert buf dur8 st E items P csz iN cN hscan hseg htcs hiN hE
      hchain hflen hcut hP hcsz hcN hdo hnod hic
  · rw [if_neg hdo]
    exact writer_shape_patch buf dur8 st E items P csz iN cN hN hscan hseg htcs hiN hE
      hchain hflen hcut hP hcsz hcN hdo hsplit hih hhc

/-- C1 witness: the amended statement instantiated on `sampleWithDur`. -/
theorem repair_output_shape_witness :
    fixCore sampleWithDur sampleDur8 = .ok
      (if (ScanSt.mk 6 13 1 17 34 []).durOff = -1 then
        sampleWithDur.take 13 ++ [0x44, 0x89, 0x88] ++ sampleDur8 ++
          (sampleWithDur.drop 13).take (34 - 13) ++
          [0x1C, 0x53, 0xBB, 0x6B] ++ [0x80] ++ ([] : List Nat) ++ sampleWithDur.drop 34
      else
        sampleWithDur.take 17 ++ sampleDur8 ++
          (sampleWithDur.drop (17 + 8)).take (34 - (17 + 8)) ++
          [0x1C, 0x53, 0xBB, 0x6B] ++ [0x80] ++ ([] : List Nat) ++ sampleWithDur.drop 34) :=
  repair_output_shape sampleWithDur sampleDur8 (ScanSt.mk 6 13 1 17 34 []) 54
    sampleWithDurItems ([] : List Nat) [0x80] 13 34 17
    (by decide) (by decide) (by decide) (by decide) (by decide)
    (chainCheck_sound sampleWithDur sampleWithDurItems ((ScanSt.mk 6 13 1 17 34 []).info) 54
      (by decide))
    (by decide) (by decide) (by decide) (by decide) (by decide)
    (Or.inr ⟨by decide, by omega, by omega,
      ([] : List PItem), ⟨13, 0x4489, 3, 8, 1⟩,
      [⟨25, 0x2AD7B1, 4, 4, 1⟩, ⟨34, 0x1C53BB6B, 5, 0, 1⟩, ⟨40, 0x6C, 1, 12, 1⟩],
      rfl, by decide, by decide, rfl, rfl, by decide⟩)

/-- C1 counterexample: `sampleNoDur` is repairable (Segment, Info,
TimecodeScale all found, no duration), yet for no cut position `k` does the
output decompose as input-prefix, inserted duration element, preserved
middle, new index element, preserved tail: the garbage cut of line 217
(`segmentOffset + readEBMLVarInt(uint8, segmentOffset - 1).value`) makes
the writer emit bytes 6..12 of the input twice, so bytes outside the
duration and index regions are not preserved. -/
theorem repair_output_shape_cex :
    fixCore sampleNoDur sampleDur8 = .ok sampleNoDurOut ∧
    ¬ ∃ k ≤ 56, 13 ≤ k ∧ sampleNoDurOut =
      sampleNoDur.take 13 ++ [0x44, 0x89, 0x88] ++ sampleDur8 ++
        (sampleNoDur.drop 13).take (k - 13) ++ [0x1C, 0x53, 0xBB, 0x6B, 0x80] ++
        sampleNoDur.drop k := by decide

/-- C2: amended round-trip statement.  The encode/decode round trip holds
with the minimal length class for every value below `2^31`, not below
`2^56` as claimed: from `2^31` on, the encoder's 32-bit bitwise operations
destroy the value (see the counterexample). -/
theorem varint_roundtrip_below_2pow31 (v : Nat) (hv : v < 2 ^ 31) :
    ∃ enc L, writeEBMLVarInt ((v : Nat) : Int) = .ok enc ∧ enc.length = L ∧
      readEBMLVarInt enc 0 = .ok (((v : Nat) : Int), L) ∧
      1 ≤ L ∧ L ≤ 8 ∧ v < 2 ^ (7 * L) ∧ (L = 1 ∨ 2 ^ (7 * (L - 1)) ≤ v) := by
  obtain ⟨enc, L, hw, hlen, _, h1, h8, hfit, hmin, hread, _⟩ := varint_roundtrip v hv
  have hr := hread []
  rw [List.append_nil] at hr
  exact ⟨enc, L, hw, hlen, hr, h1, h8, hfit, hmin⟩

/-- C2 witness: the round trip at `v = 300` (two-byte class). -/
theorem varint_roundtrip_witness :
    ∃ enc L, writeEBMLVarInt ((300 : Nat) : Int) = .ok enc ∧ enc.length = L ∧
      readEBMLVarInt enc 0 = .ok (((300 : Nat) : Int), L) ∧
      1 ≤ L ∧ L ≤ 8 ∧ 300 < 2 ^ (7 * L) ∧ (L = 1 ∨ 2 ^ (7 * (L - 1)) ≤ 300) :=
  varint_roundtrip_below_2pow31 300 (by norm_num)

/-- C2 counterexample: `2^31` is inside the claimed `[0, 2^56 - 1]` range,
but its encoding is `[0xFF, 0x80, 0, 0, 0]` (the 32-bit shift loop loses
the value and the marker OR lands on a sign-extended `0xF7`), which decodes
to `(127, 1)`, not `(2^31, 5)`. -/
theorem varint_roundtrip_cex :
    (2 ^ 31 : Nat) ≤ 2 ^ 56 - 1 ∧
    writeEBMLVarInt (((2 ^ 31 : Nat) : Nat) : Int) = .ok [0xFF, 0x80, 0x00, 0x00, 0x00] ∧
    readEBMLVarInt [0xFF, 0x80, 0x00, 0x00, 0x00] 0 = .ok (127, 1) ∧
    (127 : Int) ≠ (((2 ^ 31 : Nat) : Nat) : Int) := by decide

/-- C3: amended graceful no-op statement.  If the scan loop completes
without throwing and found no Segment or no Info, the repair returns the
input unchanged.  The unconditional claim is false: the scan itself can
throw before the fallback is reached (see the counterexample). -/
theorem repair_noop_when_unrepairable (buf dur8 : List Nat) (st : ScanSt)
    (hscan : scan buf = .ok st) (h : st.seg = -1 ∨ st.info = -1) :
    fixCore buf dur8 = .ok buf :=
  fixCore_noop buf dur8 st hscan (h.imp id Or.inl)

/-- C3 witness: the no-op on `sampleNoSeg`, which has no Segment and no
Info element. -/
theorem repair_noop_witness : fixCore sampleNoSeg sampleDur8 = .ok sampleNoSeg :=
  repair_noop_when_unrepairable sampleNoSeg sampleDur8
    (ScanSt.mk (-1) (-1) (-1) (-1) (-1) []) (by decide) (Or.inl (by decide))

/-- C3 counterexample: the one-byte buffer `[0x00]` contains no outer
container tag, yet the repair throws "Invalid EBML VINT length" from the
scan's first varint read (a zero first byte has no marker bit) instead of
returning the input unchanged. -/
theorem repair_noop_cex :
    fixCore [0x00] sampleDur8 = .error ⟨"Error", "Invalid EBML VINT length"⟩ := by decide

/-- C4: code bug.  On `sampleNoDur` (repairable, metadata block with no
duration field, declared Info size `0x4000` = 0, TimecodeScale value 1) the
repair inserts the 11-byte duration element `44 89 88 <dur8>` at the start
of the Info payload but leaves the Info element's declared size bytes
`[0x40, 0x00]` unchanged at offsets 11–12, and writes the caller's raw
8-byte duration image with no timescale scaling. -/
theorem missing_duration_insert_bug :
    scan sampleNoDur = .ok (ScanSt.mk 6 13 1 (-1) (-1) []) ∧
    fixCore sampleNoDur sampleDur8 = .ok sampleNoDurOut ∧
    (sampleNoDur.drop 11).take 2 = [0x40, 0x00] ∧
    (sampleNoDurOut.drop 11).take 2 = [0x40, 0x00] ∧
    (sampleNoDurOut.drop 13).take 11 = [0x44, 0x89, 0x88] ++ sampleDur8 ∧
    sampleNoDurOut.length = 79 := by decide

/-- C5: amended in-place patch statement.  When the scan itself recorded a
duration element (`durOff ≠ -1`, so no insertion happens) and the patch
walk meets exactly one duration element with 8 declared content bytes whose
content ends before the cut, only those 8 bytes are replaced and the output
length exceeds the input length by exactly the new index element's size
`4 + |size varint| + |payload|`.  The original claim is false for metadata
whose duration is nested inside the Info payload, the layout real files
have: there the scan misses it, a second duration element is inserted and
the nested one is patched too (see the counterexample). -/
theorem duration_patch_in_place (buf dur8 : List Nat) (st : ScanSt) (E : Int)
    (items : List PItem) (P csz : List Nat) (iN cN hN : Nat)
    (hdur8 : dur8.length = 8)
    (hscan : scan buf = .ok st)
    (hseg : st.seg ≠ -1) (htcs : st.tcs ≠ -1)
    (hiN : st.info = ((iN : Nat) : Int))
    (hE : infoEndCalc buf st.info = .ok E)
    (hchain : Chain buf st.info E items)
    (hflen : items.length < buf.length + 1)
    (hcut : cutCalc buf st.seg st.cues = .ok ((cN : Nat) : Int))
    (hP : buildCuesPayload st.clusters = .ok P)
    (hcsz : writeEBMLVarInt ((P.length : Nat) : Int) = .ok csz)
    (hcN : cN ≤ buf.length)
    (hdo : st.durOff ≠ -1)
    (hsplit : ∃ pre dit post, items = pre ++ dit :: post ∧
      (∀ it ∈ pre, it.idv ≠ 0x4489) ∧ (∀ it ∈ post, it.idv ≠ 0x4489) ∧
      dit.idv = 0x4489 ∧ dit.sv = 8 ∧
      dit.w + (dit.idl : Int) + (dit.sl : Int) = ((hN : Nat) : Int))
    (hih : iN ≤ hN) (hhc : hN + 8 ≤ cN) :
    fixCore buf dur8 = .ok (buf.take hN ++ dur8 ++
      (buf.drop (hN + 8)).take (cN - (hN + 8)) ++ [0x1C, 0x53, 0xBB, 0x6B] ++ csz ++ P ++
      buf.drop cN) ∧
    (buf.take hN ++ dur8 ++ (buf.drop (hN + 8)).take (cN - (hN + 8)) ++
      [0x1C, 0x53, 0xBB, 0x6B] ++ csz ++ P ++ buf.drop cN).length =
      buf.length + (4 + csz.length + P.length) := by
  refine ⟨writer_shape_patch buf dur8 st E items P csz iN cN hN hscan hseg htcs hiN hE
    hchain hflen hcut hP hcsz hcN hdo hsplit hih hhc, ?_⟩
  simp only [List.length_append, List.length_take, List.length_drop, List.length_cons,
    List.length_nil, hdur8]
  omega

/-- C5 witness: the amended statement instantiated on `sampleWithDur`. -/
theorem duration_patch_witness :
    fixCore sampleWithDur sampleDur8 = .ok (sampleWithDur.take 17 ++ sampleDur8 ++
      (sampleWithDur.drop (17 + 8)).take (34 - (17 + 8)) ++
      [0x1C, 0x53, 0xBB, 0x6B] ++ [0x80] ++ ([] : List Nat) ++ sampleWithDur.drop 34) ∧
    (sampleWithDur.take 17 ++ sampleDur8 ++
      (sampleWithDur.drop (17 + 8)).take (34 - (17 + 8)) ++
      [0x1C, 0x53, 0xBB, 0x6B] ++ [0x80] ++ ([] : List Nat) ++ sampleWithDur.drop 34).length =
      sampleWithDur.length + (4 + ([0x80] : List Nat).length + ([] : List Nat).length) :=
  duration_patch_in_place sampleWithDur sampleDur8 (ScanSt.mk 6 13 1 17 34 []) 54
    sampleWithDurItems ([] : List Nat) [0x80] 13 34 17
    (by decide) (by decide) (by decide) (by decide) (by decide) (by decide)
    (chainCheck_sound sampleWithDur sampleWithDurItems ((ScanSt.mk 6 13 1 17 34 []).info) 54
      (by decide))
    (by decide) (by decide) (by decide) (by decide) (by decide) (by decide)
    ⟨([] : List PItem), ⟨13, 0x4489, 3, 8, 1⟩,
      [⟨25, 0x2AD7B1, 4, 4, 1⟩, ⟨34, 0x1C53BB6B, 5, 0, 1⟩, ⟨40, 0x6C, 1, 12, 1⟩],
      rfl, by decide, by decide, rfl, rfl, by decide⟩
    (by omega) (by omega)

/-- C5 counterexample: `sampleNested` is repairable and its metadata block
(the Info payload at 13–24) contains a duration element `20 44 89 88 ...`,
but the repair both inserts a fresh duration element at offset 13 and
patches the nested one, and the output is 35 bytes longer than the input
while the new index element accounts for only 5 bytes: the metadata section
does not keep its length and more than the 8 content bytes change. -/
theorem duration_patch_cex :
    fixCore sampleNested sampleDur8 = .ok sampleNestedOut ∧
    (sampleNested.drop 13).take 4 = [0x20, 0x44, 0x89, 0x88] ∧
    (sampleNestedOut.drop 13).take 3 = [0x44, 0x89, 0x88] ∧
    (sampleNestedOut.drop 24).take 4 = [0x20, 0x44, 0x89, 0x88] ∧
    (sampleNestedOut.drop 36).take 5 = [0x1C, 0x53, 0xBB, 0x6B, 0x80] ∧
    sampleNested.length = 54 ∧ sampleNestedOut.length = 89 := by decide

/-- C6: on every repairable input whose repair succeeds, the output
contains the new index element whose payload is the concatenation of one
cue point per scanned cluster, in scan order; parsing that payload back
yields exactly one point per cluster carrying the cluster's raw scanned
timestamp (the unit conversion is the identity — the recovered timescale is
never applied), track number 1, and the cluster's recorded relative byte
offset; and if the scanned timestamps are non-decreasing, so are the index
points' times. -/
theorem cues_index_points (buf dur8 out : List Nat) (st : ScanSt)
    (hscan : scan buf = .ok st)
    (hseg : st.seg ≠ -1) (hinfo : st.info ≠ -1) (htcs : st.tcs ≠ -1)
    (hfix : fixCore buf dur8 = .ok out)
    (hbound : ∀ c ∈ st.clusters, c.1 < 2 ^ 53 ∧ 0 ≤ c.2 ∧ c.2 < 2 ^ 31) :
    ∃ pre P csz tail,
      out = pre ++ [0x1C, 0x53, 0xBB, 0x6B] ++ csz ++ P ++ tail ∧
      buildCuesPayload st.clusters = .ok P ∧
      parseCues P = some (st.clusters.map fun c => (c.1, 1, c.2.toNat)) ∧
      (st.clusters.map fun c => (c.1, 1, c.2.toNat)).length = st.clusters.length ∧
      (List.Chain' (fun a b => a ≤ b) (st.clusters.map Prod.fst) →
        List.Chain' (fun a b => a.1 ≤ b.1)
          (st.clusters.map fun c => (c.1, 1, c.2.toNat))) := by
  obtain ⟨pre, cut, P, csz, hcut, hP, hcsz, hout⟩ :=
    fixCore_inv buf dur8 out st hscan hseg hinfo htcs hfix
  obtain ⟨P2, hP2, hparse⟩ := parseCues_buildCuesPayload st.clusters hbound
  have hPP : P = P2 := by rw [hP] at hP2; exact Except.ok.inj hP2
  refine ⟨pre, P, csz, jsSliceFrom buf cut, hout, hP, ?_, by simp, ?_⟩
  · rw [hPP]; exact hparse
  · intro hmono
    rw [List.chain'_map] at hmono ⊢
    exact hmono

/-- C6 witness: the index content statement instantiated on
`sampleClusters` (clusters at timestamps 0 and 1000, offsets 22 and 33). -/
theorem cues_index_points_witness :
    ∃ pre P csz tail,
      sampleClustersOut = pre ++ [0x1C, 0x53, 0xBB, 0x6B] ++ csz ++ P ++ tail ∧
      buildCuesPayload [((0 : Nat), (22 : Int)), (1000, 33)] = .ok P ∧
      parseCues P = some ([((0 : Nat), (22 : Int)), (1000, 33)].map
        fun c => (c.1, 1, c.2.toNat)) ∧
      (([((0 : Nat), (22 : Int)), (1000, 33)].map
        fun c => (c.1, 1, c.2.toNat)).length =
        ([((0 : Nat), (22 : Int)), (1000, 33)] : List (Nat × Int)).length) ∧
      (List.Chain' (fun a b => a ≤ b)
          (([((0 : Nat), (22 : Int)), (1000, 33)] : List (Nat × Int)).map Prod.fst) →
        List.Chain' (fun a b => a.1 ≤ b.1)
          ([((0 : Nat), (22 : Int)), (1000, 33)].map fun c => (c.1, 1, c.2.toNat))) :=
  cues_index_points sampleClusters sampleDur8 sampleClustersOut
    (ScanSt.mk 6 13 1 (-1) (-1) [(0, 22), (1000, 33)])
    (by decide) (by decide) (by decide) (by decide) (by decide) (by decide)

/-- C7: code bug — repair is not idempotent.  Repairing `sampleNoDur`
yields the 79-byte `sampleNoDurOut`; repairing that output again with the
same duration yields the 125-byte `sampleNoDurTwice`, not a byte-identical
buffer: each pass re-duplicates the region between the Info offset and the
garbage cut position, inserting another duration element and another index
element. -/
theorem repair_not_idempotent :
    fixCore sampleNoDur sampleDur8 = .ok sampleNoDurOut ∧
    fixCore sampleNoDurOut sampleDur8 = .ok sampleNoDurTwice ∧
    sampleNoDurTwice ≠ sampleNoDurOut ∧
    sampleNoDurOut.length = 79 ∧ sampleNoDurTwice.length = 125 := by decide

/-- C8: amended index/tail placement.  On every repairable input whose
repair succeeds, the output ends with the new index element followed by the
bytes of the input from the cut position on; when a prior index existed
(`st.cues` is its header start) the cut is exactly that header start, so
all input bytes from the original index's header to the end of input follow
the new index verbatim.  The no-prior-index half of the original claim is
false: the new index is not appended at the end and bytes do follow it (see
the counterexample). -/
theorem index_and_tail_placement (buf dur8 out : List Nat) (st : ScanSt)
    (hscan : scan buf = .ok st)
    (hseg : st.seg ≠ -1) (hinfo : st.info ≠ -1) (htcs : st.tcs ≠ -1)
    (hfix : fixCore buf dur8 = .ok out) :
    ∃ pre cut P csz,
      cutCalc buf st.seg st.cues = .ok cut ∧
      buildCuesPayload st.clusters = .ok P ∧
      writeEBMLVarInt ((P.length : Nat) : Int) = .ok csz ∧
      out = pre ++ [0x1C, 0x53, 0xBB, 0x6B] ++ csz ++ P ++ jsSliceFrom buf cut ∧
      (∀ cN : Nat, st.cues = ((cN : Nat) : Int) →
        out = pre ++ [0x1C, 0x53, 0xBB, 0x6B] ++ csz ++ P ++ buf.drop cN) := by
  obtain ⟨pre, cut, P, csz, hcut, hP, hcsz, hout⟩ :=
    fixCore_inv buf dur8 out st hscan hseg hinfo htcs hfix
  refine ⟨pre, cut, P, csz, hcut, hP, hcsz, hout, ?_⟩
  intro cN hcN
  have hne : st.cues ≠ -1 := by rw [hcN]; omega
  have hc2 : cutCalc buf st.seg st.cues = .ok st.cues := by
    unfold cutCalc; rw [if_neg hne]; rfl
  have hcc : cut = st.cues := by
    rw [hc2] at hcut; exact (Except.ok.inj hcut).symm
  rw [hout, hcc, hcN, jsSliceFrom_nat]

/-- C8 witness: the placement statement instantiated on `sampleWithDur`,
whose prior Cues element starts at offset 34. -/
theorem index_and_tail_witness :
    ∃ pre cut P csz,
      cutCalc sampleWithDur ((ScanSt.mk 6 13 1 17 34 []).seg)
        ((ScanSt.mk 6 13 1 17 34 []).cues) = .ok cut ∧
      buildCuesPayload ((ScanSt.mk 6 13 1 17 34 []).clusters) = .ok P ∧
      writeEBMLVarInt ((P.length : Nat) : Int) = .ok csz ∧
      sampleWithDurOut = pre ++ [0x1C, 0x53, 0xBB, 0x6B] ++ csz ++ P ++
        jsSliceFrom sampleWithDur cut ∧
      (∀ cN : Nat, (ScanSt.mk 6 13 1 17 34 []).cues = ((cN : Nat) : Int) →
        sampleWithDurOut = pre ++ [0x1C, 0x53, 0xBB, 0x6B] ++ csz ++ P ++
          sampleWithDur.drop cN) :=
  index_and_tail_placement sampleWithDur sampleDur8 sampleWithDurOut
    (ScanSt.mk 6 13 1 17 34 []) (by decide) (by decide) (by decide) (by decide) (by decide)

/-- C8 counterexample: `sampleNoDur` is repairable with no prior index
(`cues = -1` after the scan), yet the new index element
`1C 53 BB 6B 80` is written at offset 24 — it appears in the output but is
not a suffix of it, and 50 bytes follow it. -/
theorem index_and_tail_cex :
    scan sampleNoDur = .ok (ScanSt.mk 6 13 1 (-1) (-1) []) ∧
    fixCore sampleNoDur sampleDur8 = .ok sampleNoDurOut ∧
    (([0x1C, 0x53, 0xBB, 0x6B, 0x80] : List Nat).isSuffixOf sampleNoDurOut = false) ∧
    (sampleNoDurOut.drop 24).take 5 = [0x1C, 0x53, 0xBB, 0x6B, 0x80] ∧
    (sampleNoDurOut.drop 29).length = 50 := by decide

/-- C9: amended overflow behaviour.  The encoder fails exactly on values
past `2^56 - 1` and succeeds at or below it, as claimed — but the failure
is a plain `Error` with message "EBML VINT size exceeded.", not a
`RangeError` (see the counterexample). -/
theorem varint_encode_overflow (v : Nat) :
    (2 ^ 56 ≤ v → writeEBMLVarInt ((v : Nat) : Int) =
      .error ⟨"Error", "EBML VINT size exceeded."⟩) ∧
    (v < 2 ^ 56 → ∃ enc, writeEBMLVarInt ((v : Nat) : Int) = .ok enc) :=
  ⟨writeEBMLVarInt_err56 v, writeEBMLVarInt_ok56 v⟩

/-- C9 witness: the overflow error at `2^60` and a successful encoding at
`200`. -/
theorem varint_encode_overflow_witness :
    writeEBMLVarInt (((2 ^ 60 : Nat) : Nat) : Int) =
      .error ⟨"Error", "EBML VINT size exceeded."⟩ ∧
    ∃ enc, writeEBMLVarInt (((200 : Nat) : Nat) : Int) = .ok enc :=
  ⟨(varint_encode_overflow (2 ^ 60)).1 (by norm_num),
   (varint_encode_overflow 200).2 (by norm_num)⟩

/-- C9 counterexample: at the first overflowing value `2^56` the thrown
error is constructed as `new Error(...)` — its name is "Error", not
"RangeError". -/
theorem varint_encode_error_kind_cex :
    writeEBMLVarInt (((2 ^ 56 : Nat) : Nat) : Int) =
      .error ⟨"Error", "EBML VINT size exceeded."⟩ ∧
    (JsErr.mk "Error" "EBML VINT size exceeded.").name ≠ "RangeError" := by decide

/-- C10: when the scan completes without recording a TimecodeScale value
(`tcs = -1`), the repair returns the input unchanged — the no-op fallback
of line 171 is triggered by a missing timestamp-scale field exactly as by a
missing Segment or Info. -/
theorem repair_noop_without_timecode_scale (buf dur8 : List Nat) (st : ScanSt)
    (hscan : scan buf = .ok st) (h : st.tcs = -1) :
    fixCore buf dur8 = .ok buf :=
  fixCore_noop buf dur8 st hscan (Or.inr (Or.inr h))

/-- C10 witness: the no-op on `sampleNoScale`, which has Segment and Info
but no TimecodeScale element. -/
theorem repair_noop_no_scale_witness :
    fixCore sampleNoScale sampleDur8 = .ok sampleNoScale :=
  repair_noop_without_timecode_scale sampleNoScale sampleDur8
    (ScanSt.mk 6 12 (-1) (-1) (-1) []) (by decide) (by decide)

end WebmFixer
